import Mathlib

/-!
Verification of the schema-reconciliation engine of the loan-applicant
ingestion service (`src/app/main.py`, `src/app/validator.py`,
`src/app/llm_service.py`).

Modelling conventions:
* Spreadsheet cell values are a tagged union `Value := none | str | num`.
  `Value.none` stands for both Python `None` and pandas' float `NaN`
  (the two are interchangeable at every program point the claims touch:
  both are dropped by `_clean_nan` and by the row filters).
* Python floats are modelled as exact rationals (`ℚ`).  Every numeric
  literal the verified claims exercise is exactly representable; IEEE-754
  rounding, `inf` and `nan` are outside the model (a string that Python
  would parse to `inf`/`nan` is treated as a parse failure).
* Python's `str()` of a float is modelled exactly for integral values
  (`"42.0"` style); non-integral rationals get a placeholder rendering
  that, like Python's, contains a non-digit separator — the only property
  any claim depends on.
* Regexes are translated to explicit character-list predicates, keeping
  Python semantics (in particular `$` also matching just before one
  trailing newline).  Character classes are ASCII, matching every input
  the claims quantify over.
-/

/-- ASCII whitespace as stripped by Python `str.strip()` (the claims only
exercise ASCII text). -/
def pyIsSpace (c : Char) : Bool :=
  c = ' ' || c = '\t' || c = '\n' || c = '\x0d' || c = '\x0b' || c = '\x0c'

/-- Drop leading characters satisfying `p`, then trailing ones: the
char-list core of Python `str.strip`. -/
def stripList (p : Char → Bool) (cs : List Char) : List Char :=
  ((cs.dropWhile p).reverse.dropWhile p).reverse

/-- Python `str.strip()` (whitespace at both ends). -/
def pyStrip (s : String) : String :=
  String.mk (stripList pyIsSpace s.toList)

/-- Python `str.strip(chars)` for a single character, as used by
`_strip_code_fences` with a backtick. -/
def pyStripChar (c : Char) (s : String) : String :=
  String.mk (stripList (· = c) s.toList)

/-- Python `str.startswith(pre)` on character lists (kernel-reducible,
unlike `String.startsWith`). -/
def pyStartsWith (s pre : String) : Bool :=
  pre.toList.isPrefixOf s.toList

/-- Python `str.endswith(suf)` on character lists. -/
def pyEndsWith (s suf : String) : Bool :=
  suf.toList.isSuffixOf s.toList

/-- Python `str.lower()` restricted to ASCII (all claim inputs are ASCII). -/
def pyLower (s : String) : String :=
  String.mk (s.toList.map Char.toLower)

/-- A character counted as alphanumeric by the normalizer's regex
`[^a-zA-Z0-9]`. -/
def isAsciiAlnum (c : Char) : Bool :=
  (('a' ≤ c && c ≤ 'z') || ('A' ≤ c && c ≤ 'Z') || ('0' ≤ c && c ≤ '9'))

/-- ASCII letter, the `[A-Za-z]` character class. -/
def isAsciiAlpha (c : Char) : Bool :=
  ('a' ≤ c && c ≤ 'z') || ('A' ≤ c && c ≤ 'Z')

/-- Worker for `collapseRuns`: the flag records whether the previous
character was part of a bad run (whose underscore is already emitted). -/
def collapseRunsAux (good : Char → Bool) : List Char → Bool → List Char
  | [], _ => []
  | c :: cs, prevBad =>
    if good c then c :: collapseRunsAux good cs false
    else if prevBad then collapseRunsAux good cs true
    else '_' :: collapseRunsAux good cs true

/-- Replace every maximal run of characters failing `good` by a single
underscore: the effect of `re.sub(r"[^a-zA-Z0-9]+", "_", ·)`. -/
def collapseRuns (good : Char → Bool) (cs : List Char) : List Char :=
  collapseRunsAux good cs false

/-- `_normalize_column_name` (`main.py:28`): strip, lowercase, collapse
non-alphanumeric runs to `_`, strip underscores.  (The second
`re.sub(r"_+", "_", ...)` in the source is a no-op after the first
substitution, which already merges runs.) -/
def normalizeColumnName (name : String) : String :=
  String.mk
    (stripList (· = '_')
      (collapseRuns isAsciiAlnum (pyLower (pyStrip name)).toList))

/-- Spreadsheet cell / field value: Python `None` (and pandas `NaN`),
`str`, or `float` (modelled as an exact rational). -/
inductive Value where
  | none : Value
  | str : String → Value
  | num : ℚ → Value
  deriving DecidableEq, Repr

/-- Python `str()` of a cell value.  Integral floats render as `"n.0"`
exactly as Python does; non-integral rationals use a placeholder with a
`/` separator (still no bare digit string, which is all any claim uses). -/
def strOfValue : Value → String
  | .none => "None"
  | .str s => s
  | .num q =>
    if q.den = 1 then toString q.num ++ ".0"
    else toString q.num ++ "/" ++ toString q.den

/-- Python truthiness of a cell value (`if clean_row[...]:`). -/
def truthy : Value → Bool
  | .none => false
  | .str s => s ≠ ""
  | .num q => q ≠ 0

/-- `_clean_nan` (`main.py:33`): `NaN` to `None`, strings stripped with
empty collapsing to `None`, everything else untouched. -/
def cleanNan : Value → Value
  | .none => .none
  | .str s => let t := pyStrip s; if t = "" then .none else .str t
  | .num q => .num q

/-- The seven canonical schema fields. -/
inductive CanonicalField where
  | loaner_id | fullname | mobile_no | loaner_adhar
  | total_amount | total_land | descrition
  deriving DecidableEq, Repr

open CanonicalField in

/-- `REQUIRED_FIELDS` (`validator.py:3`), in declared order. -/
def REQUIRED_FIELDS : List CanonicalField :=
  [loaner_id, fullname, mobile_no, loaner_adhar,
   total_amount, total_land, descrition]

/-- `FIELD_ALIASES` (`main.py:42`).  The Python source stores each alias
set as a `set`; the list order here is the literal declaration order
(iteration order of a Python set is unspecified, but no theorem below
depends on the order within one field's aliases). -/
def fieldAliases : CanonicalField → List String
  | .loaner_id => ["loaner_id", "loanerid", "id", "app_id", "application_id"]
  | .fullname => ["fullname", "full_name", "name", "customer_name"]
  | .mobile_no => ["mobile_no", "mobile", "mobile_number", "phone", "phone_no"]
  | .loaner_adhar =>
    ["loaner_adhar", "loaner_aadhar", "aadhar", "aadhaar", "adhar_no"]
  | .total_amount =>
    ["total_amount", "amount", "loan_amount", "total_loan_amount"]
  | .total_land => ["total_land", "land", "land_size", "land_area"]
  | .descrition => ["descrition", "description", "purpose", "remarks"]

/-- The flat `(normalized alias, field)` association built by
`_build_alias_to_field` (`main.py:75`), in field-declaration order. -/
def aliasFieldPairs : List (String × CanonicalField) :=
  REQUIRED_FIELDS.flatMap
    (fun f => (fieldAliases f).map (fun a => (normalizeColumnName a, f)))

/-- `ALIAS_TO_FIELD` lookup (`main.py:83`).  In Python a later duplicate
key would overwrite an earlier one; the alias table has no duplicate
normalized keys (proved below for cross-field pairs), so first-match
lookup coincides with the dict. -/
def aliasToField (token : String) : Option CanonicalField :=
  (aliasFieldPairs.find? (fun p => p.1 = token)).map Prod.snd

/-- The `normalized → actual` column table of `_resolve_field_mapping`
(`main.py:54`): columns whose normalized form starts with `unnamed` are
skipped; a later column overwrites an earlier one with the same
normalized form (Python dict assignment), hence the reversed lookup. -/
def normalizedToActual (cols : List String) : String → Option String :=
  fun token =>
    ((cols.filterMap (fun col =>
        let n := normalizeColumnName col
        if pyStartsWith n "unnamed" then Option.none else some (n, col))).reverse.lookup
      token)

/-- The per-field alias scan of `_resolve_field_mapping`: first alias
whose normalized form is a known column wins. -/
def matchedColumn (cols : List String) (f : CanonicalField) : Option String :=
  (fieldAliases f).findSome?
    (fun a => normalizedToActual cols (normalizeColumnName a))

/-- Recursive worker for `_resolve_field_mapping`: resolve each field in
order, failing the whole attempt on the first unmatched field. -/
def resolveFieldsFrom (cols : List String) :
    List CanonicalField → Option (List (CanonicalField × String))
  | [] => some []
  | f :: fs =>
    match matchedColumn cols f with
    | Option.none => Option.none
    | some col => (resolveFieldsFrom cols fs).map (fun m => (f, col) :: m)

/-- `_resolve_field_mapping` (`main.py:53`): map every canonical field to
a source column via the alias table, all-or-nothing. -/
def resolveFieldMapping (cols : List String) :
    Option (List (CanonicalField × String)) :=
  resolveFieldsFrom cols REQUIRED_FIELDS

/-- A probe cell participates in header scoring iff it is non-`None` and
its text is non-blank (`main.py:93-97`).  A pandas `NaN` cell would
contribute the token `"nan"`, which matches no alias, so folding `NaN`
into `Value.none` leaves the score unchanged. -/
def headerCellToken : Value → Option String
  | .none => Option.none
  | v => if pyStrip (strOfValue v) = "" then Option.none
         else some (normalizeColumnName (strOfValue v))

/-- Distinct-canonical-field score of one probe row (`main.py:92-99`):
the number of canonical fields matched by at least one cell token.
Filtering the (duplicate-free) `REQUIRED_FIELDS` list makes each field
count at most once, exactly like the Python set of matched fields. -/
def rowScore (row : List Value) : Nat :=
  (REQUIRED_FIELDS.filter (fun f =>
    row.any (fun cell =>
      match headerCellToken cell with
      | some t => aliasToField t = some f
      | Option.none => false))).length

/-- The scan loop of `_detect_header_row` (`main.py:89-107`), operating
on the per-row scores: track the first row attaining each new strictly
higher score, return immediately on a full 7-field match, and accept the
best row after the scan iff its score is at least 4. -/
def detectScan (i : Nat) (bestIdx : Option Nat) (bestScore : Nat) :
    List Nat → Option Nat
  | [] => if 4 ≤ bestScore then bestIdx else Option.none
  | s :: rest =>
    let bi := if bestScore < s then some i else bestIdx
    let bs := if bestScore < s then s else bestScore
    if s = 7 then some i else detectScan (i + 1) bi bs rest

/-- `_detect_header_row` (`main.py:86`): the probe parse itself is the
file-ingestion collaborator; the model takes the headerless rows
directly.  `max_rows = 15` appears as `take 15`, matching
`range(min(len(df), 15))`. -/
def detectHeaderRow (rows : List (List Value)) : Option Nat :=
  detectScan 0 Option.none 0 ((rows.take 15).map rowScore)

/-- The header-locator contract in the spec's words (§4.3): scan the
first 15 rows; return the first row matching all 7 fields outright;
otherwise return the first row attaining the maximal distinct-field
score, provided that score is at least 4. -/
def detectHeaderRowSpec (rows : List (List Value)) : Option Nat :=
  let scores := (rows.take 15).map rowScore
  match scores.findIdx? (· = 7) with
  | some i => some i
  | Option.none =>
    let best := scores.foldl max 0
    if 4 ≤ best then scores.findIdx? (· = best) else Option.none

/-- The land-unit alternation of `main.py:154`. -/
def unitWords : List String := ["acre", "acres", "hectare", "hectares", "ha"]

/-- Python regex word character (`\w`), ASCII fragment. -/
def isWordChar (c : Char) : Bool := isAsciiAlnum c || c = '_'

/-- Does some unit word occur at the head of `cs`, with a word boundary
on each side?  `prev` is the character just before `cs` (if any). -/
def landAt (prev : Option Char) (cs : List Char) : Bool :=
  unitWords.any (fun w =>
    w.toList.isPrefixOf cs
    && (match prev with | Option.none => true | some p => !isWordChar p)
    && (match cs.drop w.toList.length with
        | [] => true
        | d :: _ => !isWordChar d))

/-- Scan all positions for a boundary-delimited unit word. -/
def landSearch (prev : Option Char) : List Char → Bool
  | [] => landAt prev []
  | c :: rest => landAt prev (c :: rest) || landSearch (some c) rest

/-- Truthiness of `re.search(r"\b(acre|acres|hectare|hectares|ha)\b", ·)`
(`main.py:154`): some occurrence of a unit word flanked by word
boundaries. -/
def hasLandUnit (s : String) : Bool := landSearch Option.none s.toList

/-- `re.sub(r"\D", "", text)` (`main.py:151`): keep the digits. -/
def extractDigits (s : String) : String :=
  String.mk (s.toList.filter Char.isDigit)

/-- `re.match(r"^[A-Za-z]{1,5}[-_ ]?\d{1,}$", ·)` (`main.py:170`): one to
five letters, an optional single separator, then digits to the end.  The
input is already stripped, so the `$`-before-trailing-newline case cannot
arise. -/
def matchesIdPattern (s : String) : Bool :=
  let cs := s.toList
  let p := cs.takeWhile isAsciiAlpha
  let rest := cs.drop p.length
  let ds := match rest with
    | c :: tail => if c = '-' || c = '_' || c = ' ' then tail else rest
    | [] => rest
  1 ≤ p.length && p.length ≤ 5 && ds ≠ [] && ds.all Char.isDigit

/-- `re.fullmatch(r"\d+(\.\d+)?", ·)` (`main.py:174`). -/
def isNumericLiteral (s : String) : Bool :=
  let cs := s.toList
  let ip := cs.takeWhile Char.isDigit
  let rest := cs.drop ip.length
  ip ≠ [] &&
    (rest = [] ||
      (match rest with
       | '.' :: frac => frac ≠ [] && frac.all Char.isDigit
       | _ => false))

/-- Numeric value of a digit string (leading zeros immaterial), the
effect of Python `int` on a digit-only string. -/
def digitsToNat (ds : List Char) : Nat :=
  ds.foldl (fun n c => 10 * n + (c.toNat - 48)) 0

/-- Mantissa/exponent assembly shared by the float grammar below. -/
def assembleFloat (neg : Bool) (ip fp : List Char) (e : ℤ) : ℚ :=
  let baseN : Nat := digitsToNat ip * Nat.pow 10 fp.length + digitsToNat fp
  let num : ℤ := if neg then Int.neg (Int.ofNat baseN) else Int.ofNat baseN
  match e with
  | Int.ofNat k => mkRat (Int.mul num (Int.ofNat (Nat.pow 10 k))) (Nat.pow 10 fp.length)
  | Int.negSucc k => mkRat num (Nat.pow 10 (fp.length + (k + 1)))

/-- The optional sign at the head of an exponent: the flag says whether
the sign is negative. -/
def signSplit : List Char → Bool × List Char
  | '+' :: u => (false, u)
  | '-' :: u => (true, u)
  | t => (false, t)

/-- Exponent-part continuation of the float grammar. -/
def parseFloatExp (neg : Bool) (ip fp : List Char) : List Char → Option ℚ
  | [] => some (assembleFloat neg ip fp 0)
  | e :: t =>
    if e = 'e' || e = 'E' then
      let st := signSplit t
      let ed := st.2.takeWhile Char.isDigit
      let r := st.2.drop ed.length
      if ed = [] || r ≠ [] then Option.none
      else
        let ev : ℤ := Int.ofNat (digitsToNat ed)
        some (assembleFloat neg ip fp (if st.1 then Int.neg ev else ev))
    else Option.none

/-- Python `float(str)` on the finite decimal grammar
`[ws][+-](d+(.d*)?|.d+)([eE][+-]?d+)[ws]`, as an exact rational.
`inf`/`nan` spellings and digit-group underscores are outside the model
(treated as failures); no claim exercises them. -/
def pyFloatParseCore (neg : Bool) (cs1 : List Char) : Option ℚ :=
  let ip := cs1.takeWhile Char.isDigit
  let r1 := cs1.drop ip.length
  match r1 with
  | '.' :: t =>
    let fp := t.takeWhile Char.isDigit
    let r2 := t.drop fp.length
    if ip = [] && fp = [] then Option.none
    else parseFloatExp neg ip fp r2
  | _ => if ip = [] then Option.none else parseFloatExp neg ip [] r1

/-- Strip whitespace and the optional sign, then parse the unsigned
part. -/
def pyFloatParse (s : String) : Option ℚ :=
  match stripList pyIsSpace s.toList with
  | '+' :: t => pyFloatParseCore false t
  | '-' :: t => pyFloatParseCore true t
  | cs0 => pyFloatParseCore false cs0

/-- Python `float(value)` on a cell value. -/
def pyFloatOfValue : Value → Option ℚ
  | .none => Option.none
  | .str s => pyFloatParse s
  | .num q => some q

/-- Python `int()` truncation toward zero on a rational (`Int.tdiv` of
the reduced numerator by the denominator). -/
def pyInt (q : ℚ) : ℤ := Int.tdiv q.num (Int.ofNat q.den)

/-- A row after mapping: exactly the seven canonical keys of
`MappedRow` in the spec's data model (the Python dict is always built
from `REQUIRED_FIELDS`, so the key set is fixed structurally). -/
structure MappedRow where
  loaner_id : Value
  fullname : Value
  mobile_no : Value
  loaner_adhar : Value
  total_amount : Value
  total_land : Value
  descrition : Value
  deriving DecidableEq, Repr

/-- The all-null row the content classifier starts from (`main.py:145`). -/
def emptyRow : MappedRow :=
  ⟨Value.none, Value.none, Value.none, Value.none,
   Value.none, Value.none, Value.none⟩

/-- Python `$` at the end of the mobile/adhar validator patterns: matches
at the true end or just before one trailing newline. -/
def matchTail (rest : List Char) : Bool := rest = [] || rest = ['\n']

/-- `re.match(r"^[6-9][0-9]{9}$", ·)` (`validator.py:29`). -/
def matchesMobilePattern (s : String) : Bool :=
  match s.toList with
  | c :: rest =>
    ('6' ≤ c && c ≤ '9') && (rest.take 9).length = 9
      && (rest.take 9).all Char.isDigit && matchTail (rest.drop 9)
  | [] => false

/-- `re.match(r"^[0-9]{12}$", ·)` (`validator.py:33`). -/
def matchesAdharPattern (s : String) : Bool :=
  let cs := s.toList
  (cs.take 12).length = 12 && (cs.take 12).all Char.isDigit
    && matchTail (cs.drop 12)

/-- `validate_and_clean` body for one row (`validator.py:16-36`).  The
Python loop first copies exactly the `REQUIRED_FIELDS` keys out of the
incoming dict, which is the structural content of `MappedRow`. -/
def validateRow (r : MappedRow) : MappedRow :=
  let amount := match r.total_amount with
    | Value.none => Value.none
    | v =>
      match pyFloatOfValue v with
      | some q => Value.num q
      | Option.none => Value.none
  let mob :=
    if truthy r.mobile_no then
      if matchesMobilePattern (strOfValue r.mobile_no) then r.mobile_no
      else Value.none
    else r.mobile_no
  let adh :=
    if truthy r.loaner_adhar then
      if matchesAdharPattern (strOfValue r.loaner_adhar) then r.loaner_adhar
      else Value.none
    else r.loaner_adhar
  { r with total_amount := amount, mobile_no := mob, loaner_adhar := adh }

/-- `validate_and_clean` (`validator.py:13`). -/
def validateAndClean (rows : List MappedRow) : List MappedRow :=
  rows.map validateRow

/-- One classifier pass over a row's cells carries the partially
inferred row plus the text and numeric candidate pools
(`main.py:145-147`). -/
structure ClassifyState where
  inferred : MappedRow
  textCandidates : List String
  numericCandidates : List String
  deriving DecidableEq, Repr

/-- Leading digit test of the mobile rule (`main.py:165`). -/
def mobileLeadDigit : List Char → Bool
  | c :: _ => c = '6' || c = '7' || c = '8' || c = '9'
  | [] => false

/-- The ordered per-cell rules of `_extract_rows_by_content`
(`main.py:149-177`): land unit, 12-digit aadhaar, 10-digit mobile,
letters-then-digits identifier, then the numeric/text candidate pools. -/
def classifyCell (st : ClassifyState) (v : Value) : ClassifyState :=
  let text := pyStrip (strOfValue v)
  let digits := extractDigits text
  let lower := pyLower text
  if st.inferred.total_land = Value.none && hasLandUnit lower then
    { st with inferred := { st.inferred with total_land := .str text } }
  else if st.inferred.loaner_adhar = Value.none && digits.length = 12 then
    { st with inferred := { st.inferred with loaner_adhar := .str digits } }
  else if st.inferred.mobile_no = Value.none && digits.length = 10
      && mobileLeadDigit digits.toList then
    { st with inferred := { st.inferred with mobile_no := .str digits } }
  else if matchesIdPattern text && st.inferred.loaner_id = Value.none then
    { st with inferred :=
        { st.inferred with
          loaner_id := .str (String.mk (text.toList.filter (· ≠ ' '))) } }
  else if isNumericLiteral text then
    { st with numericCandidates := st.numericCandidates ++ [text] }
  else
    { st with textCandidates := st.textCandidates ++ [text] }

/-- Python `max(candidates, key=len)`: first candidate of maximal
length. -/
def pickLongest : List String → String
  | [] => ""
  | x :: xs => xs.foldl (fun best c => if best.length < c.length then c else best) x

/-- Worker for Python `str.split()`: split on whitespace runs, dropping
empty pieces. -/
def splitWsAux (acc : List Char) : List Char → List String
  | [] => if acc = [] then [] else [String.mk acc.reverse]
  | c :: cs =>
    if pyIsSpace c then
      if acc = [] then splitWsAux [] cs
      else String.mk acc.reverse :: splitWsAux [] cs
    else splitWsAux (c :: acc) cs

/-- Python `str.split()` with no argument. -/
def pySplitWs (s : String) : List String := splitWsAux [] s.toList

/-- The fullname scan of `main.py:181-184`: first text candidate other
than the chosen description with at most four words. -/
def findFullname (descr : String) : List String → Option String
  | [] => Option.none
  | c :: cs =>
    if c ≠ descr && (pySplitWs c).length ≤ 4 then some c
    else findFullname descr cs

/-- The numeric-candidate pass of `main.py:186-194`: the first value at
least 1000 becomes the amount; the first integral value strictly between
0 and 10000 becomes the identifier if still unset.  The same candidate
may serve both rules (the source has no `continue` between them). -/
def numericPass (inf : MappedRow) : List String → MappedRow
  | [] => inf
  | c :: cs =>
    match pyFloatParse c with
    | Option.none => numericPass inf cs
    | some n =>
      let inf1 :=
        if inf.total_amount = Value.none && 1000 ≤ n then
          { inf with total_amount := .num n }
        else inf
      let inf2 :=
        if inf1.loaner_id = Value.none && n.den = 1 && 0 < n && n < 10000 then
          { inf1 with loaner_id := .str (toString n.num) }
        else inf1
      numericPass inf2 cs

/-- The description/fullname pass over the text-candidate pool
(`main.py:179-184`). -/
def textPass (st : ClassifyState) : MappedRow :=
  if st.textCandidates ≠ [] then
    let descr := pickLongest st.textCandidates
    let inf := { st.inferred with descrition := Value.str descr }
    match findFullname descr st.textCandidates with
    | some fn => { inf with fullname := Value.str fn }
    | Option.none => inf
  else st.inferred

/-- The classification of one non-empty cleaned row: per-cell rules,
text-candidate pass, numeric-candidate pass, `TEMP{index}` fallback. -/
def classifyRowCore (idx : Nat) (values : List Value) : MappedRow :=
  let st := values.foldl classifyCell ⟨emptyRow, [], []⟩
  let withNums := numericPass (textPass st) st.numericCandidates
  if withNums.loaner_id = Value.none then
    { withNums with loaner_id := .str ("TEMP" ++ toString idx) }
  else withNums

/-- One row of `_extract_rows_by_content` (`main.py:140-199`): clean and
drop empty cells (skipping the row if nothing remains), then classify. -/
def classifyRow (idx : Nat) (row : List Value) : Option MappedRow :=
  let values := row.filterMap (fun v =>
    match cleanNan v with
    | Value.none => Option.none
    | w => some w)
  if values = [] then Option.none
  else some (classifyRowCore idx values)

/-- A row all of whose cells are `NaN`, dropped by
`df.dropna(how="all")`. -/
def isAllNone (row : List Value) : Bool := row.all (· = Value.none)

/-- `_extract_rows_by_content` (`main.py:137`): drop all-`NaN` rows,
classify the rest with 1-based indices (skipped-empty rows still consume
an index, as with `enumerate`), and collapse an empty result to `None`. -/
def extractRowsByContent (rows : List (List Value)) : Option (List MappedRow) :=
  let kept := rows.filter (fun r => !isAllNone r)
  let out := kept.enum.filterMap (fun p => classifyRow (p.1 + 1) p.2)
  if out = [] then Option.none else some out

/-- `"AUTO{batch_tag}{index:04d}"` padding: for indices below 10000 the
format yields exactly the four decimal digits; larger indices print in
full. -/
def pad4 (i : Nat) : String :=
  if i < 10000 then
    String.mk [Nat.digitChar (i / 1000 % 10), Nat.digitChar (i / 100 % 10),
               Nat.digitChar (i / 10 % 10), Nat.digitChar (i % 10)]
  else toString i

/-- `_ensure_loaner_id` (`main.py:204`). -/
def ensureLoanerId (v : Value) (index : Nat) (batchTag : String) : String :=
  match v with
  | Value.none => "AUTO" ++ batchTag ++ pad4 index
  | _ =>
    let text := pyStrip (strOfValue v)
    if text = "" then "AUTO" ++ batchTag ++ pad4 index
    else if pyEndsWith text ".0" then
      match pyFloatParse text with
      | some q => toString (pyInt q)
      | Option.none => text
    else text

/-- `_loaner_sort_key` (`main.py:218`): the regex
`^([A-Za-z]+)?0*([0-9]+)$` splits the trimmed text into a maximal letter
run and a digit run; `int` of the digit group ignores leading zeros,
which is `digitsToNat` of the whole digit run. -/
def loanerSortKey (v : Value) : Nat × String × Nat × String :=
  let text := match v with
    | Value.none => ""
    | w => pyStrip (strOfValue w)
  let cs := text.toList
  let p := cs.takeWhile isAsciiAlpha
  let ds := cs.drop p.length
  if ds ≠ [] && ds.all Char.isDigit then
    (0, pyLower (String.mk p), digitsToNat ds, pyLower text)
  else
    (1, pyLower text, 0, pyLower text)

/-- Code-point comparison of character lists: Python `str <`. -/
def charListLt : List Char → List Char → Bool
  | [], [] => false
  | [], _ :: _ => true
  | _ :: _, [] => false
  | x :: xs, y :: ys =>
    if x.val < y.val then true
    else if y.val < x.val then false
    else charListLt xs ys

/-- Python string comparison. -/
def strLtPy (a b : String) : Bool := charListLt a.toList b.toList

/-- Python tuple `<` on sort keys (lexicographic). -/
def keyLt (a b : Nat × String × Nat × String) : Bool :=
  if a.1 ≠ b.1 then decide (a.1 < b.1)
  else if a.2.1 ≠ b.2.1 then strLtPy a.2.1 b.2.1
  else if a.2.2.1 ≠ b.2.2.1 then decide (a.2.2.1 < b.2.2.1)
  else strLtPy a.2.2.2 b.2.2.2

/-- Stable insertion for the model of Python `sorted(key=...)`. -/
def insertByKey (x : Value) : List Value → List Value
  | [] => [x]
  | y :: ys =>
    if keyLt (loanerSortKey x) (loanerSortKey y) then x :: y :: ys
    else y :: insertByKey x ys

/-- Python `sorted(ids, key=_loaner_sort_key)` (stable; the concrete
lists proved about have pairwise distinct keys, where every correct sort
agrees). -/
def sortedByLoanerKey (l : List Value) : List Value :=
  l.foldr insertByKey []

/-- The parsed table handed to the mapping layer: column labels plus row
cells (the file-ingestion collaborator of the spec). -/
structure Df where
  cols : List String
  rows : List (List Value)

/-- Cell of a row under a column label (pandas record lookup). -/
def getCell (cols : List String) (row : List Value) (col : String) : Value :=
  match cols.indexOf? col with
  | some i => row.getD i Value.none
  | Option.none => Value.none

/-- Projection of one table row through a resolved field mapping
(`main.py:129-133`): pull each field's column and clean `NaN`/blank
scalars. -/
def rowFromMapping (cols : List String) (m : List (CanonicalField × String))
    (row : List Value) : MappedRow :=
  let get (f : CanonicalField) : Value :=
    match m.lookup f with
    | some col => cleanNan (getCell cols row col)
    | Option.none => Value.none
  { loaner_id := get .loaner_id, fullname := get .fullname,
    mobile_no := get .mobile_no, loaner_adhar := get .loaner_adhar,
    total_amount := get .total_amount, total_land := get .total_land,
    descrition := get .descrition }

/-- `_extract_direct_rows` (`main.py:121`): drop all-`NaN` rows, resolve
the header mapping (all-or-nothing), project the survivors. -/
def extractDirectRows (df : Df) : Option (List MappedRow) :=
  let kept := df.rows.filter (fun r => !isAllNone r)
  match resolveFieldMapping df.cols with
  | Option.none => Option.none
  | some m => some (kept.map (rowFromMapping df.cols m))

/-- Outcome of the mapping stage of `upload_excel` (`main.py:265-283`):
either the 400 `UnmappableSchema` rejection carrying the required fields
and the normalized detected columns, or the validated rows tagged with
their mapping source.  Persistence (`main.py:286-301`) consumes only the
success arm, so the rejection path structurally attempts none. -/
inductive UploadResult where
  | unmappable : List CanonicalField → List String → UploadResult
  | success : String → List MappedRow → UploadResult
  deriving DecidableEq, Repr

/-- The mapping-and-validation stage of `upload_excel`: direct extraction
first, content classification second, rejection third. -/
def uploadPipeline (df : Df) : UploadResult :=
  match extractDirectRows df with
  | some rs => .success "direct_header" (validateAndClean rs)
  | Option.none =>
    match extractRowsByContent df.rows with
    | some rs => .success "content_heuristic" (validateAndClean rs)
    | Option.none => .unmappable REQUIRED_FIELDS (df.cols.map normalizeColumnName)

/-- JSON values, the domain of the decoded LLM payload
(`llm_service.py`).  Numbers are exact rationals, in line with the float
model above. -/
inductive Json where
  | null : Json
  | bool : Bool → Json
  | num : ℚ → Json
  | str : String → Json
  | arr : List Json → Json
  | obj : List (String × Json) → Json
  deriving Repr

/-- JSON structural whitespace. -/
def skipWs (cs : List Char) : List Char :=
  cs.dropWhile (fun c => c = ' ' || c = '\t' || c = '\n' || c = '\x0d')

/-- Hex digit value, for `\u` escapes. -/
def hexVal (c : Char) : Option Nat :=
  if '0' ≤ c && c ≤ '9' then some (c.toNat - 48)
  else if 'a' ≤ c && c ≤ 'f' then some (c.toNat - 87)
  else if 'A' ≤ c && c ≤ 'F' then some (c.toNat - 55)
  else Option.none

/-- JSON string body (after the opening quote), with the standard escape
set.  `\u` surrogates outside Lean's scalar range are rejected; no claim
exercises them. -/
def parseJStr (acc : List Char) : List Char → Option (String × List Char)
  | [] => Option.none
  | '"' :: rest => some (String.mk acc.reverse, rest)
  | '\\' :: 'u' :: a :: b :: c :: d :: rest =>
    (match hexVal a, hexVal b, hexVal c, hexVal d with
     | some x, some y, some z, some w =>
       let n := ((x * 16 + y) * 16 + z) * 16 + w
       if h : n < 0xd800 ∨ (0xdfff < n ∧ n < 0x110000) then
         parseJStr (Char.ofNatAux n (by omega) :: acc) rest
       else Option.none
     | _, _, _, _ => Option.none)
  | '\\' :: e :: rest =>
    (match e with
     | '"' => parseJStr ('"' :: acc) rest
     | '\\' => parseJStr ('\\' :: acc) rest
     | '/' => parseJStr ('/' :: acc) rest
     | 'n' => parseJStr ('\n' :: acc) rest
     | 't' => parseJStr ('\t' :: acc) rest
     | 'r' => parseJStr ('\x0d' :: acc) rest
     | 'b' => parseJStr ('\x08' :: acc) rest
     | 'f' => parseJStr ('\x0c' :: acc) rest
     | _ => Option.none)
  | c :: rest => if c.toNat < 32 then Option.none else parseJStr (c :: acc) rest

/-- Strict JSON number grammar
`-?(0|[1-9]d*)(.d+)?([eE][+-]?d+)?`, reusing the rational assembly of the
float model. -/
def parseJNumber (cs : List Char) : Option (ℚ × List Char) :=
  let (neg, cs1) : Bool × List Char :=
    match cs with
    | '-' :: t => (true, t)
    | _ => (false, cs)
  let ip := cs1.takeWhile Char.isDigit
  let r1 := cs1.drop ip.length
  let okInt : Bool :=
    match ip with
    | [] => false
    | ['0'] => true
    | c :: _ => c ≠ '0'
  if !okInt then Option.none
  else
    let (fp, r2) : List Char × List Char :=
      match r1 with
      | '.' :: t => (t.takeWhile Char.isDigit, (t.takeWhile Char.isDigit).length |> t.drop)
      | _ => ([], r1)
    if r1.head? = some '.' && fp = [] then Option.none
    else
      match r2 with
      | e :: t =>
        if e = 'e' || e = 'E' then
          let st := signSplit t
          let ed := st.2.takeWhile Char.isDigit
          let r3 := st.2.drop ed.length
          if ed = [] then Option.none
          else
            let ev : ℤ := Int.ofNat (digitsToNat ed)
            some (assembleFloat neg ip fp (if st.1 then Int.neg ev else ev), r3)
        else some (assembleFloat neg ip fp 0, r2)
      | [] => some (assembleFloat neg ip fp 0, [])

/-- Parsing mode of the single fueled JSON parser: a value, the member
list of an object, or the item list of an array.  A single function
keeps the recursion structural on the fuel, so concrete parses reduce
inside the kernel. -/
inductive JMode where
  | value | members | items

/-- Partial results of the three parsing modes. -/
inductive JOut where
  | val : Json → JOut
  | mems : List (String × Json) → JOut
  | elems : List Json → JOut

/-- Fueled recursive-descent JSON parser (the model of `json.loads`).
The three grammatical modes of the usual mutually recursive
presentation are folded into one function driven by `JMode`. -/
def parseJ : Nat → JMode → List Char → Option (JOut × List Char)
  | 0, _, _ => Option.none
  | Nat.succ fuel, .value, cs =>
    (match skipWs cs with
     | '"' :: rest => (parseJStr [] rest).map (fun p => (JOut.val (Json.str p.1), p.2))
     | '{' :: rest =>
       (match skipWs rest with
        | '}' :: r2 => some (JOut.val (Json.obj []), r2)
        | r2 =>
          match parseJ fuel .members r2 with
          | some (JOut.mems kvs, r3) => some (JOut.val (Json.obj kvs), r3)
          | _ => Option.none)
     | '[' :: rest =>
       (match skipWs rest with
        | ']' :: r2 => some (JOut.val (Json.arr []), r2)
        | r2 =>
          match parseJ fuel .items r2 with
          | some (JOut.elems xs, r3) => some (JOut.val (Json.arr xs), r3)
          | _ => Option.none)
     | 't' :: 'r' :: 'u' :: 'e' :: rest => some (JOut.val (Json.bool true), rest)
     | 'f' :: 'a' :: 'l' :: 's' :: 'e' :: rest => some (JOut.val (Json.bool false), rest)
     | 'n' :: 'u' :: 'l' :: 'l' :: rest => some (JOut.val Json.null, rest)
     | rest => (parseJNumber rest).map (fun p => (JOut.val (Json.num p.1), p.2)))
  | Nat.succ fuel, .members, cs =>
    (match skipWs cs with
     | '"' :: rest =>
       (match parseJStr [] rest with
        | Option.none => Option.none
        | some (k, r1) =>
          match skipWs r1 with
          | ':' :: r2 =>
            (match parseJ fuel .value r2 with
             | some (JOut.val v, r3) =>
               (match skipWs r3 with
                | ',' :: r4 =>
                  (match parseJ fuel .members r4 with
                   | some (JOut.mems kvs, r5) => some (JOut.mems ((k, v) :: kvs), r5)
                   | _ => Option.none)
                | '}' :: r4 => some (JOut.mems [(k, v)], r4)
                | _ => Option.none)
             | _ => Option.none)
          | _ => Option.none)
     | _ => Option.none)
  | Nat.succ fuel, .items, cs =>
    (match parseJ fuel .value cs with
     | some (JOut.val v, r1) =>
       (match skipWs r1 with
        | ',' :: r2 =>
          (match parseJ fuel .items r2 with
           | some (JOut.elems xs, r3) => some (JOut.elems (v :: xs), r3)
           | _ => Option.none)
        | ']' :: r2 => some (JOut.elems [v], r2)
        | _ => Option.none)
     | _ => Option.none)

/-- `json.loads` with explicit fuel: a complete parse with only trailing
whitespace remaining. -/
def jsonLoadsFuel (fuel : Nat) (s : String) : Option Json :=
  match parseJ fuel .value s.toList with
  | some (JOut.val v, rest) => if skipWs rest = [] then some v else Option.none
  | _ => Option.none

/-- The model of `json.loads`: at least one character is consumed per
two levels of recursion, so `2·length + 2` fuel never runs dry. -/
def jsonLoads (s : String) : Option Json := jsonLoadsFuel (2 * s.length + 2) s

/-- `_strip_code_fences` (`llm_service.py:13`): strip whitespace; if the
text opens a fenced block, strip all backticks at both ends and a
leading case-insensitive `json` tag; strip whitespace again. -/
def stripCodeFences (text : String) : String :=
  let t := pyStrip text
  let t2 :=
    if pyStartsWith t "```" then
      let u := pyStripChar '`' t
      if pyStartsWith (pyLower u) "json" then String.mk (u.toList.drop 4) else u
    else t
  pyStrip t2

/-- The distinct 502 rejections of `_parse_mapped_payload`
(`llm_service.py:22`), plus the out-of-fuel marker of the model (Python
needs none: each decode of a string strictly shrinks it). -/
inductive PayloadError where
  | listNonObject | invalidJsonString | unsupported | fuelExhausted
  deriving DecidableEq, Repr

/-- Is a JSON value an object (`isinstance(item, dict)`)? -/
def isObj : Json → Bool
  | .obj _ => true
  | _ => false

/-- `_parse_mapped_payload` (`llm_service.py:22`): a dict is wrapped, a
list is accepted iff every item is a dict, a string is fence-stripped,
decoded and re-processed recursively, everything else is rejected. -/
def parseMappedPayload : Nat → Json → Except PayloadError (List Json)
  | _, .obj kvs => .ok [Json.obj kvs]
  | _, .arr xs => if xs.all isObj then .ok xs else .error .listNonObject
  | Nat.succ fuel, .str s =>
    (match jsonLoads (stripCodeFences s) with
     | Option.none => .error .invalidJsonString
     | some j => parseMappedPayload fuel j)
  | 0, .str _ => .error .fuelExhausted
  | _, _ => .error .unsupported

/-- The acceptance predicate in the claim's words: a JSON object, an
array of objects, or a string that (after fence stripping) decodes into
one of those two forms — with no recursion through nested strings. -/
def payloadAcceptSpec (j : Json) : Bool :=
  match j with
  | .obj _ => true
  | .arr xs => xs.all isObj
  | .str s =>
    (match jsonLoads (stripCodeFences s) with
     | some (.obj _) => true
     | some (.arr xs) => xs.all isObj
     | _ => false)
  | _ => false

/-- The acceptance predicate the code actually implements: the string
case recurses, so a string decoding to an accepted payload (at any
nesting depth within the fuel) is accepted. -/
def payloadAcceptRec : Nat → Json → Bool
  | _, .obj _ => true
  | _, .arr xs => xs.all isObj
  | Nat.succ fuel, .str s =>
    (match jsonLoads (stripCodeFences s) with
     | some j => payloadAcceptRec fuel j
     | Option.none => false)
  | 0, .str _ => false
  | _, _ => false

/-- Is an `Except` result a success? -/
def isOkPayload : Except PayloadError (List Json) → Bool
  | .ok _ => true
  | .error _ => false

/-- Validated canonical form of a classifier-produced mobile number:
null, or exactly ten digits led by 6–9. -/
def mobileShape (v : Value) : Prop :=
  v = Value.none ∨ ∃ s : String, v = Value.str s ∧ s.toList.length = 10 ∧
    s.toList.all Char.isDigit = true ∧ mobileLeadDigit s.toList = true

/-- Validated canonical form of a classifier-produced aadhaar: null, or
exactly twelve digits. -/
def adharShape (v : Value) : Prop :=
  v = Value.none ∨ ∃ s : String, v = Value.str s ∧ s.toList.length = 12 ∧
    s.toList.all Char.isDigit = true

/-- A row holding all seven canonical header aliases. -/
def headerAliasRow : List Value :=
  [Value.str "loaner_id", Value.str "fullname", Value.str "mobile_no",
   Value.str "loaner_adhar", Value.str "total_amount", Value.str "total_land",
   Value.str "descrition"]

/-- A filler row matching no alias. -/
def junkRow : List Value := [Value.str "x"]

/-- C1: the content classifier, applied to the single row
`["LN-102", "Jane Q Public", "9876543210", "123456789012", "50000",
"2 acres", "tractor purchase"]`, produces exactly the mapping
`{loaner_id: "LN-102", fullname: "Jane Q Public", mobile_no:
"9876543210", loaner_adhar: "123456789012", total_amount: 50000,
total_land: "2 acres", descrition: "tractor purchase"}`. -/
theorem c1_content_classifier_single_row :
    extractRowsByContent
      [[Value.str "LN-102", Value.str "Jane Q Public", Value.str "9876543210",
        Value.str "123456789012", Value.str "50000", Value.str "2 acres",
        Value.str "tractor purchase"]]
      = some [{ loaner_id := Value.str "LN-102",
                fullname := Value.str "Jane Q Public",
                mobile_no := Value.str "9876543210",
                loaner_adhar := Value.str "123456789012",
                total_amount := Value.num 50000,
                total_land := Value.str "2 acres",
                descrition := Value.str "tractor purchase" }] := by
  decide

/-- C8: for every canonical field and every alias declared in its alias
set, the alias-to-field index resolves the normalized alias to exactly
that field; consequently normalized aliases never collide across two
distinct canonical fields. -/
theorem c8_alias_resolution_exact :
    (∀ f ∈ REQUIRED_FIELDS, ∀ a ∈ fieldAliases f,
        aliasToField (normalizeColumnName a) = some f) ∧
    (∀ f ∈ REQUIRED_FIELDS, ∀ g ∈ REQUIRED_FIELDS,
        ∀ a ∈ fieldAliases f, ∀ b ∈ fieldAliases g,
        normalizeColumnName a = normalizeColumnName b → f = g) := by
  constructor
  · decide
  · decide

/-- C8 witness: the second conjunct applied at two concrete aliases of
distinct fields. -/
theorem c8_alias_resolution_exact_witness :
    aliasToField (normalizeColumnName "phone") = some CanonicalField.mobile_no :=
  c8_alias_resolution_exact.1 CanonicalField.mobile_no (by decide) "phone" (by decide)

/-- C9 counterexample: the payload `Json.str "\"{}\""` is a string that
decodes to another *string* (`"{}"`), not to an object or an array of
objects, so by the claim it must be rejected; the code instead recurses
through the nested string and returns `[{}]`. -/
theorem c9_counterexample_nested_string :
    parseMappedPayload 2 (Json.str "\"\x7b\x7d\"") = .ok [Json.obj []] ∧
    payloadAcceptSpec (Json.str "\"\x7b\x7d\"") = false :=
  ⟨rfl, rfl⟩

/-- C9 amended: the parser returns a list of objects exactly when the
payload is a JSON object (wrapped as a one-element list), a JSON array
of objects, or a string that — after stripping optional fenced-code
markers — decodes into a payload that is itself accepted, recursively
through any depth of string nesting; every other payload shape is
rejected as an upstream failure.  Every returned list consists of
objects only, and an object payload is returned as the one-element list
wrapping it.  (Fuel bounds the string-recursion depth; Python needs no
bound because each decode strictly shrinks the string.) -/
theorem c9_payload_parser_amended :
    ∀ (fuel : Nat) (j : Json),
      isOkPayload (parseMappedPayload fuel j) = payloadAcceptRec fuel j ∧
      (∀ l, parseMappedPayload fuel j = .ok l →
        l.all isObj = true ∧ (isObj j = true → l = [j])) := by
  intro fuel
  induction fuel with
  | zero =>
    intro j
    cases j with
    | obj kvs =>
      refine ⟨rfl, fun l hl => ?_⟩
      cases hl
      exact ⟨rfl, fun _ => rfl⟩
    | arr xs =>
      refine ⟨?_, fun l hl => ?_⟩
      · show isOkPayload (if xs.all isObj then _ else _) = _
        cases h : xs.all isObj <;> simp [h, payloadAcceptRec, isOkPayload]
      · revert hl
        show (if xs.all isObj then Except.ok xs else _) = _ → _
        cases h : xs.all isObj with
        | true =>
          intro hl
          cases hl
          exact ⟨h, fun hobj => by simp [isObj] at hobj⟩
        | false => intro hl; cases hl
    | str s => exact ⟨rfl, fun l hl => by cases hl⟩
    | null => exact ⟨rfl, fun l hl => by cases hl⟩
    | bool b => exact ⟨rfl, fun l hl => by cases hl⟩
    | num q => exact ⟨rfl, fun l hl => by cases hl⟩
  | succ fuel ih =>
    intro j
    cases j with
    | obj kvs =>
      refine ⟨rfl, fun l hl => ?_⟩
      cases hl
      exact ⟨rfl, fun _ => rfl⟩
    | arr xs =>
      refine ⟨?_, fun l hl => ?_⟩
      · show isOkPayload (if xs.all isObj then _ else _) = _
        cases h : xs.all isObj <;> simp [h, payloadAcceptRec, isOkPayload]
      · revert hl
        show (if xs.all isObj then Except.ok xs else _) = _ → _
        cases h : xs.all isObj with
        | true =>
          intro hl
          cases hl
          exact ⟨h, fun hobj => by simp [isObj] at hobj⟩
        | false => intro hl; cases hl
    | str s =>
      refine ⟨?_, fun l hl => ?_⟩
      · show isOkPayload
            (match jsonLoads (stripCodeFences s) with
             | Option.none => Except.error PayloadError.invalidJsonString
             | some j2 => parseMappedPayload fuel j2) = _
        cases hd : jsonLoads (stripCodeFences s) with
        | none => simp [payloadAcceptRec, hd, isOkPayload]
        | some j2 => simp [payloadAcceptRec, hd, (ih j2).1]
      · revert hl
        show (match jsonLoads (stripCodeFences s) with
              | Option.none => Except.error PayloadError.invalidJsonString
              | some j2 => parseMappedPayload fuel j2) = _ → _
        cases hd : jsonLoads (stripCodeFences s) with
        | none => intro hl; cases hl
        | some j2 =>
          intro hl
          exact ⟨((ih j2).2 l hl).1, fun hobj => by simp [isObj] at hobj⟩
    | null => exact ⟨rfl, fun l hl => by cases hl⟩
    | bool b => exact ⟨rfl, fun l hl => by cases hl⟩
    | num q => exact ⟨rfl, fun l hl => by cases hl⟩

/-- C9 witness: the amended characterization applied at a concrete
object payload, discharging its hypotheses there. -/
theorem c9_payload_parser_amended_witness :
    [Json.obj [("k", Json.str "v")]].all isObj = true ∧
    [Json.obj [("k", Json.str "v")]] = [Json.obj [("k", Json.str "v")]] := by
  have h :=
    (c9_payload_parser_amended 1 (Json.obj [("k", Json.str "v")])).2
      [Json.obj [("k", Json.str "v")]] rfl
  exact ⟨h.1, h.2 rfl⟩

/-- C4 counterexample: an empty-string `mobile_no` (or `loaner_adhar`)
does not match the validation pattern, yet the validator passes it
through unchanged instead of nulling it — Python's `if clean_row[...]`
guard skips falsy values entirely. -/
theorem c4_counterexample_empty_string_passthrough :
    (validateRow { loaner_id := Value.none, fullname := Value.none,
                   mobile_no := Value.str "", loaner_adhar := Value.str "",
                   total_amount := Value.none, total_land := Value.none,
                   descrition := Value.none }).mobile_no = Value.str "" ∧
    (validateRow { loaner_id := Value.none, fullname := Value.none,
                   mobile_no := Value.str "", loaner_adhar := Value.str "",
                   total_amount := Value.none, total_land := Value.none,
                   descrition := Value.none }).loaner_adhar = Value.str "" ∧
    matchesMobilePattern "" = false ∧
    matchesAdharPattern "" = false :=
  ⟨rfl, rfl, rfl, rfl⟩

/-- C4 amended: the validator is total and pure; after validation
`total_amount` is a number or null — a non-null value is coerced through
`float` and nulled exactly on coercion failure; `mobile_no` and
`loaner_adhar` are nulled exactly when they are *truthy* (non-null,
non-empty, non-zero) and their string form fails the Python `re.match`
of `^[6-9]\d{9}$` resp. `^\d{12}$` (which also tolerates one trailing
newline); falsy values — null, but also the empty string and zero —
pass through verbatim; all other fields pass through verbatim. -/
theorem c4_row_validator_amended :
    ∀ r : MappedRow,
      ((validateRow r).total_amount = Value.none ∨
        ∃ q, (validateRow r).total_amount = Value.num q) ∧
      (∀ q, r.total_amount ≠ Value.none →
        pyFloatOfValue r.total_amount = some q →
        (validateRow r).total_amount = Value.num q) ∧
      (r.total_amount ≠ Value.none →
        pyFloatOfValue r.total_amount = Option.none →
        (validateRow r).total_amount = Value.none) ∧
      (truthy r.mobile_no = false → (validateRow r).mobile_no = r.mobile_no) ∧
      (truthy r.mobile_no = true →
        matchesMobilePattern (strOfValue r.mobile_no) = true →
        (validateRow r).mobile_no = r.mobile_no) ∧
      (truthy r.mobile_no = true →
        matchesMobilePattern (strOfValue r.mobile_no) = false →
        (validateRow r).mobile_no = Value.none) ∧
      (truthy r.loaner_adhar = false →
        (validateRow r).loaner_adhar = r.loaner_adhar) ∧
      (truthy r.loaner_adhar = true →
        matchesAdharPattern (strOfValue r.loaner_adhar) = true →
        (validateRow r).loaner_adhar = r.loaner_adhar) ∧
      (truthy r.loaner_adhar = true →
        matchesAdharPattern (strOfValue r.loaner_adhar) = false →
        (validateRow r).loaner_adhar = Value.none) ∧
      (validateRow r).loaner_id = r.loaner_id ∧
      (validateRow r).fullname = r.fullname ∧
      (validateRow r).total_land = r.total_land ∧
      (validateRow r).descrition = r.descrition := by
  intro r
  refine ⟨?_, ?_, ?_, ?_, ?_, ?_, ?_, ?_, ?_, rfl, rfl, rfl, rfl⟩
  · cases h : r.total_amount with
    | none => exact Or.inl (by simp [validateRow, h])
    | str s =>
      cases hq : pyFloatParse s with
      | none => exact Or.inl (by simp [validateRow, h, pyFloatOfValue, hq])
      | some q => exact Or.inr ⟨q, by simp [validateRow, h, pyFloatOfValue, hq]⟩
    | num q => exact Or.inr ⟨q, by simp [validateRow, h, pyFloatOfValue]⟩
  · intro q hne hq
    cases h : r.total_amount with
    | none => exact absurd h hne
    | str s =>
      rw [h] at hq
      simp only [pyFloatOfValue] at hq
      simp [validateRow, h, pyFloatOfValue, hq]
    | num p =>
      rw [h] at hq
      simp only [pyFloatOfValue, Option.some.injEq] at hq
      simp [validateRow, h, pyFloatOfValue, hq]
  · intro hne hq
    cases h : r.total_amount with
    | none => exact absurd h hne
    | str s =>
      rw [h] at hq
      simp only [pyFloatOfValue] at hq
      simp [validateRow, h, pyFloatOfValue, hq]
    | num p =>
      rw [h] at hq
      simp [pyFloatOfValue] at hq
  · intro ht
    simp [validateRow, ht]
  · intro ht hm
    simp [validateRow, ht, hm]
  · intro ht hm
    simp [validateRow, ht, hm]
  · intro ht
    simp [validateRow, ht]
  · intro ht hm
    simp [validateRow, ht, hm]
  · intro ht hm
    simp [validateRow, ht, hm]

/-- C4 witness: the amended theorem applied at a concrete row with a
valid mobile number, an invalid aadhaar, and an uncoercible amount. -/
theorem c4_row_validator_amended_witness :
    (validateRow { loaner_id := Value.none, fullname := Value.none,
                   mobile_no := Value.str "9123456789", loaner_adhar := Value.str "123",
                   total_amount := Value.str "abc", total_land := Value.none,
                   descrition := Value.none }).mobile_no = Value.str "9123456789" ∧
    (validateRow { loaner_id := Value.none, fullname := Value.none,
                   mobile_no := Value.str "9123456789", loaner_adhar := Value.str "123",
                   total_amount := Value.str "abc", total_land := Value.none,
                   descrition := Value.none }).loaner_adhar = Value.none ∧
    (validateRow { loaner_id := Value.none, fullname := Value.none,
                   mobile_no := Value.str "9123456789", loaner_adhar := Value.str "123",
                   total_amount := Value.str "abc", total_land := Value.none,
                   descrition := Value.none }).total_amount = Value.none := by
  obtain ⟨-, -, h3, -, h5, -, -, -, h9, -⟩ :=
    c4_row_validator_amended
      { loaner_id := Value.none, fullname := Value.none,
        mobile_no := Value.str "9123456789", loaner_adhar := Value.str "123",
        total_amount := Value.str "abc", total_land := Value.none,
        descrition := Value.none }
  exact ⟨h5 rfl rfl, h9 rfl rfl, h3 (by decide) rfl⟩

/-- Association-list lookup succeeds exactly when some pair carries the
key. -/
theorem lookup_fst_isSome {β : Type} (l : List (String × β)) (k : String) :
    (l.lookup k).isSome = true ↔ ∃ p, p ∈ l ∧ p.1 = k := by
  induction l with
  | nil => simp [List.lookup]
  | cons a l ih =>
    obtain ⟨x, y⟩ := a
    by_cases h : k = x
    · subst h
      simp [List.lookup]
    · have hb : (k == x) = false := beq_false_of_ne h
      simp only [List.lookup, hb]
      rw [ih]
      constructor
      · rintro ⟨p, hp, hk⟩
        exact ⟨p, List.mem_cons_of_mem _ hp, hk⟩
      · rintro ⟨p, hp, hk⟩
        rcases List.mem_cons.mp hp with h1 | h1
        · subst h1
          exact absurd hk.symm h
        · exact ⟨p, h1, hk⟩

/-- `findSome?` succeeds exactly when the function succeeds on some
element. -/
theorem findSome?_isSome {α β : Type} (f : α → Option β) (l : List α) :
    (l.findSome? f).isSome = true ↔ ∃ a, a ∈ l ∧ (f a).isSome = true := by
  induction l with
  | nil => simp [List.findSome?]
  | cons x l ih =>
    rw [List.findSome?_cons]
    cases hf : f x with
    | some b => simp [hf]
    | none =>
      rw [ih]
      constructor
      · rintro ⟨a, ha, h⟩
        exact ⟨a, List.mem_cons_of_mem _ ha, h⟩
      · rintro ⟨a, ha, h⟩
        rcases List.mem_cons.mp ha with h1 | h1
        · subst h1
          rw [hf] at h
          cases h
        · exact ⟨a, h1, h⟩

/-- The normalized-column table holds a token exactly when some
non-`unnamed` column normalizes to it. -/
theorem normalizedToActual_isSome (cols : List String) (tok : String) :
    (normalizedToActual cols tok).isSome = true ↔
      ∃ col, col ∈ cols ∧
        pyStartsWith (normalizeColumnName col) "unnamed" = false ∧
        normalizeColumnName col = tok := by
  unfold normalizedToActual
  rw [lookup_fst_isSome]
  constructor
  · rintro ⟨p, hp, hk⟩
    rw [List.mem_reverse, List.mem_filterMap] at hp
    obtain ⟨col, hcol, hg⟩ := hp
    by_cases hu : pyStartsWith (normalizeColumnName col) "unnamed" = true
    · simp [hu] at hg
    · have hu2 : pyStartsWith (normalizeColumnName col) "unnamed" = false :=
        Bool.not_eq_true _ ▸ by simpa using hu
      simp only [hu2, Bool.false_eq_true, if_false] at hg
      cases hg
      exact ⟨col, hcol, hu2, hk⟩
  · rintro ⟨col, hcol, hu, hn⟩
    refine ⟨(normalizeColumnName col, col), ?_, hn⟩
    rw [List.mem_reverse, List.mem_filterMap]
    exact ⟨col, hcol, by simp [hu]⟩

/-- A field finds a column exactly when some alias of the field
normalizes to some usable column's normalized label. -/
theorem matchedColumn_isSome (cols : List String) (f : CanonicalField) :
    (matchedColumn cols f).isSome = true ↔
      ∃ col, col ∈ cols ∧
        pyStartsWith (normalizeColumnName col) "unnamed" = false ∧
        ∃ a, a ∈ fieldAliases f ∧
          normalizeColumnName a = normalizeColumnName col := by
  unfold matchedColumn
  rw [findSome?_isSome]
  constructor
  · rintro ⟨a, ha, h⟩
    rw [normalizedToActual_isSome] at h
    obtain ⟨col, hcol, hu, hn⟩ := h
    exact ⟨col, hcol, hu, a, ha, hn.symm⟩
  · rintro ⟨col, hcol, hu, a, ha, hn⟩
    refine ⟨a, ha, ?_⟩
    rw [normalizedToActual_isSome]
    exact ⟨col, hcol, hu, hn.symm⟩

/-- The field-by-field resolution succeeds exactly when every field in
the list finds a column. -/
theorem resolveFieldsFrom_isSome (cols : List String) :
    ∀ fs : List CanonicalField,
      (resolveFieldsFrom cols fs).isSome = true ↔
        ∀ f ∈ fs, (matchedColumn cols f).isSome = true := by
  intro fs
  induction fs with
  | nil => simp [resolveFieldsFrom]
  | cons f fs ih =>
    unfold resolveFieldsFrom
    cases hm : matchedColumn cols f with
    | none =>
      simp only [Option.isSome_none, Bool.false_eq_true, false_iff]
      intro hall
      have := hall f (List.mem_cons_self f fs)
      rw [hm] at this
      cases this
    | some col =>
      cases hr : resolveFieldsFrom cols fs with
      | none =>
        have h2 : ¬ ∀ g ∈ fs, (matchedColumn cols g).isSome = true := by
          intro hall
          have hs := ih.mpr hall
          rw [hr] at hs
          cases hs
        constructor
        · intro hs
          exact Bool.noConfusion hs
        · intro hall
          exact absurd (fun g hg => hall g (List.mem_cons_of_mem _ hg)) h2
      | some m2 =>
        constructor
        · intro _ g hg
          rcases List.mem_cons.mp hg with h1 | h1
          · subst h1
            rw [hm]
            rfl
          · exact (ih.mp (by rw [hr]; rfl)) g h1
        · intro _
          rfl

/-- A successful resolution assigns a column to exactly the fields
asked for, in order. -/
theorem resolveFieldsFrom_keys (cols : List String) :
    ∀ (fs : List CanonicalField) (m : List (CanonicalField × String)),
      resolveFieldsFrom cols fs = some m → m.map Prod.fst = fs := by
  intro fs
  induction fs with
  | nil =>
    intro m hm
    cases hm
    rfl
  | cons f fs ih =>
    intro m hm
    unfold resolveFieldsFrom at hm
    cases hmc : matchedColumn cols f with
    | none => rw [hmc] at hm; cases hm
    | some col =>
      rw [hmc] at hm
      cases hr : resolveFieldsFrom cols fs with
      | none => rw [hr] at hm; cases hm
      | some m2 =>
        rw [hr] at hm
        cases hm
        simp only [List.map_cons]
        rw [ih m2 hr]

/-- C3: the direct mapper is all-or-nothing: it succeeds exactly when
every one of the 7 canonical fields has some (non-`unnamed`) column
whose normalized header equals a normalized alias of the field, and a
successful mapping always assigns a column to all 7 fields — never a
proper subset. -/
theorem c3_direct_mapper_all_or_nothing :
    ∀ cols : List String,
      ((resolveFieldMapping cols).isSome = true ↔
        ∀ f ∈ REQUIRED_FIELDS, ∃ col, col ∈ cols ∧
          pyStartsWith (normalizeColumnName col) "unnamed" = false ∧
          ∃ a, a ∈ fieldAliases f ∧
            normalizeColumnName a = normalizeColumnName col) ∧
      (∀ m, resolveFieldMapping cols = some m →
        m.map Prod.fst = REQUIRED_FIELDS) := by
  intro cols
  constructor
  · rw [resolveFieldMapping, resolveFieldsFrom_isSome]
    constructor
    · intro h f hf
      exact (matchedColumn_isSome cols f).mp (h f hf)
    · intro h f hf
      exact (matchedColumn_isSome cols f).mpr (h f hf)
  · intro m hm
    exact resolveFieldsFrom_keys cols REQUIRED_FIELDS m hm

/-- C3 witness: a concrete seven-column header resolves to a complete
mapping covering all 7 fields. -/
theorem c3_direct_mapper_all_or_nothing_witness :
    ([(CanonicalField.loaner_id, "ID"), (CanonicalField.fullname, "Customer Name"),
      (CanonicalField.mobile_no, "Phone"), (CanonicalField.loaner_adhar, "Aadhaar"),
      (CanonicalField.total_amount, "Amount"), (CanonicalField.total_land, "Land"),
      (CanonicalField.descrition, "Purpose")].map Prod.fst) = REQUIRED_FIELDS :=
  (c3_direct_mapper_all_or_nothing
    ["ID", "Customer Name", "Phone", "Aadhaar", "Amount", "Land", "Purpose"]).2
    [(CanonicalField.loaner_id, "ID"), (CanonicalField.fullname, "Customer Name"),
     (CanonicalField.mobile_no, "Phone"), (CanonicalField.loaner_adhar, "Aadhaar"),
     (CanonicalField.total_amount, "Amount"), (CanonicalField.total_land, "Land"),
     (CanonicalField.descrition, "Purpose")] rfl

/-- Any member of an indexed enumeration is a member of the underlying
list. -/
theorem snd_mem_of_mem_enumFrom {α : Type} :
    ∀ (l : List α) (n : Nat) (p : Nat × α), p ∈ l.enumFrom n → p.2 ∈ l := by
  intro l
  induction l with
  | nil => intro n p hp; cases hp
  | cons x xs ih =>
    intro n p hp
    rcases List.mem_cons.mp hp with h1 | h1
    · subst h1
      exact List.mem_cons_self x xs
    · exact List.mem_cons_of_mem _ (ih (n + 1) p h1)

/-- C7: when the direct mapper fails and the content classifier, after
dropping entirely-empty rows, yields no rows at all, the upload is
rejected with the error carrying the 7 required fields and the
normalized detected columns.  The empty classifier result is `none`
("no rows available"), never a success; and the rejection arm of
`UploadResult` carries no rows, so no persistence is attempted for the
upload (`main.py` reaches the insert loop only past the `raise`). -/
theorem c7_unmappable_rejection :
    ∀ df : Df,
      ((∀ row ∈ df.rows,
          row.filterMap (fun v => match cleanNan v with
            | Value.none => Option.none
            | w => some w) = []) →
        extractRowsByContent df.rows = Option.none) ∧
      (extractDirectRows df = Option.none →
        extractRowsByContent df.rows = Option.none →
        uploadPipeline df =
          UploadResult.unmappable REQUIRED_FIELDS
            (df.cols.map normalizeColumnName)) := by
  intro df
  constructor
  · intro hempty
    unfold extractRowsByContent
    have hout :
        ((df.rows.filter (fun r => !isAllNone r)).enum.filterMap
          (fun p => classifyRow (p.1 + 1) p.2)) = [] := by
      rw [List.filterMap_eq_nil_iff]
      intro p hp
      have hmem : p.2 ∈ df.rows.filter (fun r => !isAllNone r) :=
        snd_mem_of_mem_enumFrom _ 0 p hp
      have hrow : p.2 ∈ df.rows := (List.mem_filter.mp hmem).1
      have hv := hempty p.2 hrow
      unfold classifyRow
      rw [hv]
      rfl
    simp [hout]
  · intro hdirect hcontent
    unfold uploadPipeline
    rw [hdirect, hcontent]

/-- C7 witness: a one-column table whose single row is blank text fails
both extraction strategies and is rejected with the required fields and
the (empty-normalized) detected column. -/
theorem c7_unmappable_rejection_witness :
    uploadPipeline ⟨["junk"], [[Value.str "   "]]⟩ =
      UploadResult.unmappable REQUIRED_FIELDS ["junk"] :=
  (c7_unmappable_rejection ⟨["junk"], [[Value.str "   "]]⟩).2 rfl
    ((c7_unmappable_rejection ⟨["junk"], [[Value.str "   "]]⟩).1
      (by intro row hrow; cases hrow with
          | head => rfl
          | tail _ h => cases h))

/-- A decimal digit is not an ASCII letter. -/
theorem digit_not_alpha (c : Char) (h : c.isDigit = true) :
    isAsciiAlpha c = false := by
  simp only [Char.isDigit, Bool.and_eq_true, decide_eq_true_eq] at h
  obtain ⟨h1, h2⟩ := h
  have hb : c.val.toNat ≤ ('9').val.toNat := h2
  have e2 : ('9').val.toNat = 57 := rfl
  unfold isAsciiAlpha
  simp only [Bool.or_eq_false_iff, Bool.and_eq_false_iff]
  constructor
  · refine Or.inl (decide_eq_false ?_)
    intro hle
    have hx : ('a').val.toNat ≤ c.val.toNat := hle
    have e1 : ('a').val.toNat = 97 := rfl
    omega
  · refine Or.inl (decide_eq_false ?_)
    intro hle
    have hx : ('A').val.toNat ≤ c.val.toNat := hle
    have e1 : ('A').val.toNat = 65 := rfl
    omega

/-- `takeWhile`/`dropWhile` split across a concatenation whose first
part satisfies the predicate throughout and whose second part starts
with a failing element. -/
theorem takeWhile_dropWhile_append {p : Char → Bool} :
    ∀ l1 l2 : List Char, (∀ c ∈ l1, p c = true) →
      (∀ c, l2.head? = some c → p c = false) →
      (l1 ++ l2).takeWhile p = l1 ∧ (l1 ++ l2).dropWhile p = l2 := by
  intro l1
  induction l1 with
  | nil =>
    intro l2 _ h2
    cases l2 with
    | nil => exact ⟨rfl, rfl⟩
    | cons c t =>
      have := h2 c rfl
      simp [List.takeWhile_cons, List.dropWhile_cons, this]
  | cons x xs ih =>
    intro l2 h1 h2
    have hx : p x = true := h1 x (List.mem_cons_self x xs)
    have hrec := ih l2 (fun c hc => h1 c (List.mem_cons_of_mem _ hc)) h2
    simp only [List.cons_append, List.takeWhile_cons, List.dropWhile_cons, hx,
      if_true]
    exact ⟨by rw [hrec.1], by rw [hrec.2]⟩

/-- C6: the sort key yields `(0, lowercased prefix, numeric value,
lowercased full text)` for every id whose (trimmed) text is an optional
alphabetic prefix followed by digits — the numeric value reading the
digit run with leading zeros ignored — and `(1, lowercased full text,
0, lowercased full text)` for every other id; sorting
`["B2","10","A2","2","TEMP1"]` by it places the ids grouped by prefix
and ordered numerically, with `"TEMP1"` last.  (The code applies the
regex to the stripped id text, `main.py:219`.) -/
theorem c6_loaner_sort_key :
    (∀ (id : String) (p ds : List Char),
      (∀ c ∈ p, isAsciiAlpha c = true) → ds ≠ [] →
      (∀ c ∈ ds, c.isDigit = true) →
      (pyStrip id).toList = p ++ ds →
      loanerSortKey (Value.str id) =
        (0, pyLower (String.mk p), digitsToNat ds, pyLower (pyStrip id))) ∧
    (∀ id : String,
      (¬ ∃ p ds, (∀ c ∈ p, isAsciiAlpha c = true) ∧ ds ≠ [] ∧
        (∀ c ∈ ds, c.isDigit = true) ∧ (pyStrip id).toList = p ++ ds) →
      loanerSortKey (Value.str id) =
        (1, pyLower (pyStrip id), 0, pyLower (pyStrip id))) ∧
    sortedByLoanerKey
        [Value.str "B2", Value.str "10", Value.str "A2", Value.str "2",
         Value.str "TEMP1"]
      = [Value.str "2", Value.str "10", Value.str "A2", Value.str "B2",
         Value.str "TEMP1"] := by
  refine ⟨?_, ?_, by decide⟩
  · intro id p ds hp hne hds hsplit
    unfold loanerSortKey
    have hhead : ∀ c, ds.head? = some c → isAsciiAlpha c = false := by
      intro c hc
      cases ds with
      | nil => cases hc
      | cons d t =>
        injection hc with h
        subst h
        exact digit_not_alpha d (hds d (List.mem_cons_self d t))
    have hsp := takeWhile_dropWhile_append p ds hp hhead
    have htake : (pyStrip (strOfValue (Value.str id))).toList.takeWhile isAsciiAlpha = p := by
      show (pyStrip id).toList.takeWhile isAsciiAlpha = p
      rw [hsplit]
      exact hsp.1
    have hlen : ((pyStrip (strOfValue (Value.str id))).toList.takeWhile isAsciiAlpha).length = p.length := by
      rw [htake]
    have hdrop : (pyStrip (strOfValue (Value.str id))).toList.drop p.length = ds := by
      show (pyStrip id).toList.drop p.length = ds
      rw [hsplit, List.drop_left]
    have hcond : (ds ≠ [] && ds.all Char.isDigit) = true := by
      rw [Bool.and_eq_true]
      constructor
      · simpa using hne
      · rw [List.all_eq_true]
        exact hds
    simp only [htake, hlen, hdrop, hcond, if_true]
    rfl
  · intro id hno
    unfold loanerSortKey
    set cs := (pyStrip (strOfValue (Value.str id))).toList with hcs
    have hcs2 : cs = (pyStrip id).toList := rfl
    by_cases hcond : ((cs.drop (cs.takeWhile isAsciiAlpha).length) ≠ [] &&
        (cs.drop (cs.takeWhile isAsciiAlpha).length).all Char.isDigit) = true
    · exfalso
      apply hno
      refine ⟨cs.takeWhile isAsciiAlpha, cs.drop (cs.takeWhile isAsciiAlpha).length,
        ?_, ?_, ?_, ?_⟩
      · intro c hc
        exact List.mem_takeWhile_imp hc
      · rw [Bool.and_eq_true] at hcond
        simpa using hcond.1
      · rw [Bool.and_eq_true] at hcond
        intro c hc
        exact (List.all_eq_true.mp hcond.2) c hc
      · rw [← hcs2]
        have hpre : cs.takeWhile isAsciiAlpha = cs.take (cs.takeWhile isAsciiAlpha).length :=
          List.prefix_iff_eq_take.mp (List.takeWhile_prefix _)
        calc cs = cs.take (cs.takeWhile isAsciiAlpha).length ++
                  cs.drop (cs.takeWhile isAsciiAlpha).length :=
                (List.take_append_drop _ _).symm
          _ = cs.takeWhile isAsciiAlpha ++
                cs.drop (cs.takeWhile isAsciiAlpha).length := by rw [← hpre]
    · rw [if_neg ?_]
      · rfl
      · intro hc
        exact hcond hc

/-- C6 witness: the prefixed-digits case applied at `"A0010"` (leading
zeros ignored in the numeric component). -/
theorem c6_loaner_sort_key_witness :
    loanerSortKey (Value.str "A0010") =
      (0, pyLower (String.mk ['A']), digitsToNat ['0', '0', '1', '0'],
        pyLower (pyStrip "A0010")) :=
  c6_loaner_sort_key.1 "A0010" ['A'] ['0', '0', '1', '0']
    (by decide) (by decide) (by decide) (by decide)

/-- The digit extraction yields digit characters only. -/
theorem extractDigits_all_digits (s : String) :
    (extractDigits s).toList.all Char.isDigit = true := by
  unfold extractDigits
  rw [List.all_eq_true]
  intro c hc
  exact (List.mem_filter.mp hc).2

/-- Each per-cell rule preserves the canonical shapes of the mobile and
aadhaar slots (they are only ever set by their own guarded rules). -/
theorem classifyCell_shape (st : ClassifyState) (v : Value)
    (hm : mobileShape st.inferred.mobile_no)
    (ha : adharShape st.inferred.loaner_adhar) :
    mobileShape (classifyCell st v).inferred.mobile_no ∧
      adharShape (classifyCell st v).inferred.loaner_adhar := by
  unfold classifyCell
  dsimp only
  split_ifs with h1 h2 h3 h4 h5
  · exact ⟨hm, ha⟩
  · refine ⟨hm, Or.inr ⟨extractDigits (pyStrip (strOfValue v)), rfl, ?_, ?_⟩⟩
    · have := (Bool.and_eq_true _ _).mp h2
      have hlen : (extractDigits (pyStrip (strOfValue v))).length = 12 := by
        exact_mod_cast of_decide_eq_true this.2
      exact hlen
    · exact extractDigits_all_digits _
  · rcases (Bool.and_eq_true _ _).mp h3 with ⟨h3a, h3b⟩
    rcases (Bool.and_eq_true _ _).mp h3a with ⟨-, h3len⟩
    refine ⟨Or.inr ⟨extractDigits (pyStrip (strOfValue v)), rfl, ?_, ?_, h3b⟩, ha⟩
    · exact_mod_cast of_decide_eq_true h3len
    · exact extractDigits_all_digits _
  · exact ⟨hm, ha⟩
  · exact ⟨hm, ha⟩
  · exact ⟨hm, ha⟩

/-- Shape preservation through the whole per-cell fold. -/
theorem foldl_classifyCell_shape :
    ∀ (values : List Value) (st : ClassifyState),
      mobileShape st.inferred.mobile_no →
      adharShape st.inferred.loaner_adhar →
      mobileShape (values.foldl classifyCell st).inferred.mobile_no ∧
        adharShape (values.foldl classifyCell st).inferred.loaner_adhar := by
  intro values
  induction values with
  | nil => intro st hm ha; exact ⟨hm, ha⟩
  | cons v vs ih =>
    intro st hm ha
    have h := classifyCell_shape st v hm ha
    exact ih (classifyCell st v) h.1 h.2

/-- The text-candidate pass touches only `descrition` and `fullname`. -/
theorem textPass_fixes (st : ClassifyState) :
    (textPass st).mobile_no = st.inferred.mobile_no ∧
      (textPass st).loaner_adhar = st.inferred.loaner_adhar ∧
      (textPass st).loaner_id = st.inferred.loaner_id ∧
      (textPass st).total_amount = st.inferred.total_amount := by
  unfold textPass
  split_ifs with h
  · cases hf : findFullname (pickLongest st.textCandidates) st.textCandidates with
    | none => simp [hf]
    | some fn => simp [hf]
  · exact ⟨rfl, rfl, rfl, rfl⟩

/-- The numeric-candidate pass touches only `total_amount` and
`loaner_id`. -/
theorem numericPass_fixes :
    ∀ (cs : List String) (inf : MappedRow),
      (numericPass inf cs).mobile_no = inf.mobile_no ∧
        (numericPass inf cs).loaner_adhar = inf.loaner_adhar := by
  intro cs
  induction cs with
  | nil => intro inf; exact ⟨rfl, rfl⟩
  | cons c cs ih =>
    intro inf
    unfold numericPass
    cases hp : pyFloatParse c with
    | none => exact ih inf
    | some n =>
      dsimp only
      constructor
      · rw [(ih _).1]
        split_ifs <;> rfl
      · rw [(ih _).2]
        split_ifs <;> rfl

/-- Every classified row has a non-null identifier and canonical mobile
and aadhaar slots. -/
theorem classifyRowCore_props (idx : Nat) (values : List Value) :
    (classifyRowCore idx values).loaner_id ≠ Value.none ∧
      mobileShape (classifyRowCore idx values).mobile_no ∧
      adharShape (classifyRowCore idx values).loaner_adhar := by
  unfold classifyRowCore
  dsimp only
  have hsh := foldl_classifyCell_shape values ⟨emptyRow, [], []⟩
    (Or.inl rfl) (Or.inl rfl)
  have htp := textPass_fixes (values.foldl classifyCell ⟨emptyRow, [], []⟩)
  have hnp := numericPass_fixes
    (values.foldl classifyCell ⟨emptyRow, [], []⟩).numericCandidates
    (textPass (values.foldl classifyCell ⟨emptyRow, [], []⟩))
  have hmob :
      (numericPass (textPass (values.foldl classifyCell ⟨emptyRow, [], []⟩))
        (values.foldl classifyCell ⟨emptyRow, [], []⟩).numericCandidates).mobile_no
        = (values.foldl classifyCell ⟨emptyRow, [], []⟩).inferred.mobile_no := by
    rw [hnp.1, htp.1]
  have hadh :
      (numericPass (textPass (values.foldl classifyCell ⟨emptyRow, [], []⟩))
        (values.foldl classifyCell ⟨emptyRow, [], []⟩).numericCandidates).loaner_adhar
        = (values.foldl classifyCell ⟨emptyRow, [], []⟩).inferred.loaner_adhar := by
    rw [hnp.2, htp.2.1]
  split_ifs with hid
  · refine ⟨?_, ?_, ?_⟩
    · intro h
      cases h
    · show mobileShape
        (numericPass (textPass (values.foldl classifyCell ⟨emptyRow, [], []⟩))
          (values.foldl classifyCell ⟨emptyRow, [], []⟩).numericCandidates).mobile_no
      rw [hmob]
      exact hsh.1
    · show adharShape
        (numericPass (textPass (values.foldl classifyCell ⟨emptyRow, [], []⟩))
          (values.foldl classifyCell ⟨emptyRow, [], []⟩).numericCandidates).loaner_adhar
      rw [hadh]
      exact hsh.2
  · refine ⟨hid, ?_, ?_⟩
    · rw [hmob]
      exact hsh.1
    · rw [hadh]
      exact hsh.2

/-- A ten-digit string led by 6–9 matches the mobile validation
pattern. -/
theorem mobile_pattern_of_digits (s : String)
    (hlen : s.toList.length = 10) (hdig : s.toList.all Char.isDigit = true)
    (hlead : mobileLeadDigit s.toList = true) :
    matchesMobilePattern s = true := by
  cases hcs : s.toList with
  | nil => rw [hcs] at hlen; cases hlen
  | cons c rest =>
    rw [hcs] at hlen hdig hlead
    have hr : rest.length = 9 := by
      simpa using hlen
    have htake : rest.take 9 = rest := by
      rw [← hr]
      exact List.take_length rest
    have hdrop : rest.drop 9 = [] := by
      rw [← hr]
      exact List.drop_length rest
    have hall : rest.all Char.isDigit = true := by
      rw [List.all_cons] at hdig
      exact ((Bool.and_eq_true _ _).mp hdig).2
    have hbound : ('6' ≤ c && c ≤ '9') = true := by
      unfold mobileLeadDigit at hlead
      rcases (by simpa using hlead :
          ((c = '6' ∨ c = '7') ∨ c = '8') ∨ c = '9')
        with ((h | h) | h) | h <;> subst h <;> decide
    have hm : matchesMobilePattern s =
        (('6' ≤ c && c ≤ '9') && decide ((rest.take 9).length = 9)
          && (rest.take 9).all Char.isDigit && matchTail (rest.drop 9)) := by
      unfold matchesMobilePattern
      rw [hcs]
    rw [hm, htake, hdrop, hr, hbound, hall]
    rfl

/-- A twelve-digit string matches the aadhaar validation pattern. -/
theorem adhar_pattern_of_digits (s : String)
    (hlen : s.toList.length = 12) (hdig : s.toList.all Char.isDigit = true) :
    matchesAdharPattern s = true := by
  have htake : s.toList.take 12 = s.toList := by
    rw [← hlen]
    exact List.take_length _
  have hdrop : s.toList.drop 12 = [] := by
    rw [← hlen]
    exact List.drop_length _
  show (decide ((s.toList.take 12).length = 12)
    && (s.toList.take 12).all Char.isDigit
    && matchTail (s.toList.drop 12)) = true
  rw [htake, hdrop, hlen, hdig]
  rfl

/-- A canonical mobile slot is a fixed point of the validator. -/
theorem validateRow_mobile_of_shape (r : MappedRow)
    (h : mobileShape r.mobile_no) :
    (validateRow r).mobile_no = r.mobile_no := by
  rcases h with h | ⟨s, hv, hlen, hdig, hlead⟩
  · simp [validateRow, h, truthy]
  · have hne : s ≠ "" := by
      intro he
      subst he
      cases hlen
    have hmatch := mobile_pattern_of_digits s hlen hdig hlead
    simp [validateRow, hv, truthy, hne, strOfValue, hmatch]

/-- A canonical aadhaar slot is a fixed point of the validator. -/
theorem validateRow_adhar_of_shape (r : MappedRow)
    (h : adharShape r.loaner_adhar) :
    (validateRow r).loaner_adhar = r.loaner_adhar := by
  rcases h with h | ⟨s, hv, hlen, hdig⟩
  · simp [validateRow, h, truthy]
  · have hne : s ≠ "" := by
      intro he
      subst he
      cases hlen
    have hmatch := adhar_pattern_of_digits s hlen hdig
    simp [validateRow, hv, truthy, hne, strOfValue, hmatch]

/-- C10: every row the content classifier emits (it carries exactly the
7 canonical keys by the structure of `MappedRow`) has a non-null
`loaner_id`, and `mobile_no` / `loaner_adhar` are null or already in
validated canonical form — ten digits led by 6–9, respectively exactly
twelve digits, because the classifier stores only the extracted
digits — so the row validator leaves both fields unchanged on every
such row. -/
theorem c10_classifier_row_invariant :
    ∀ (rows : List (List Value)) (out : List MappedRow),
      extractRowsByContent rows = some out →
      ∀ r ∈ out,
        r.loaner_id ≠ Value.none ∧
        mobileShape r.mobile_no ∧
        adharShape r.loaner_adhar ∧
        (validateRow r).mobile_no = r.mobile_no ∧
        (validateRow r).loaner_adhar = r.loaner_adhar := by
  intro rows out hout r hr
  have hcore : ∃ idx values, r = classifyRowCore idx values := by
    unfold extractRowsByContent at hout
    by_cases hemp :
        ((rows.filter (fun rw => !isAllNone rw)).enum.filterMap
          (fun p => classifyRow (p.1 + 1) p.2)) = []
    · rw [if_pos hemp] at hout
      cases hout
    · rw [if_neg hemp] at hout
      injection hout with hout2
      subst hout2
      obtain ⟨p, -, hcl⟩ := List.mem_filterMap.mp hr
      unfold classifyRow at hcl
      by_cases hv :
          (p.2.filterMap (fun v => match cleanNan v with
            | Value.none => Option.none
            | w => some w)) = []
      · rw [if_pos hv] at hcl
        cases hcl
      · rw [if_neg hv] at hcl
        injection hcl with hcl2
        exact ⟨p.1 + 1, _, hcl2.symm⟩
  obtain ⟨idx, values, rfl⟩ := hcore
  have hp := classifyRowCore_props idx values
  exact ⟨hp.1, hp.2.1, hp.2.2,
    validateRow_mobile_of_shape _ hp.2.1,
    validateRow_adhar_of_shape _ hp.2.2⟩

/-- C10 witness: the invariant applied to the concrete classification
of a single-cell row holding a mobile number. -/
theorem c10_classifier_row_invariant_witness :
    (⟨Value.str "TEMP1", Value.none, Value.str "9876543210", Value.none,
      Value.none, Value.none, Value.none⟩ : MappedRow).loaner_id ≠ Value.none ∧
    mobileShape (Value.str "9876543210") ∧
    adharShape Value.none ∧
    (validateRow
      (⟨Value.str "TEMP1", Value.none, Value.str "9876543210", Value.none,
        Value.none, Value.none, Value.none⟩ : MappedRow)).mobile_no
      = Value.str "9876543210" ∧
    (validateRow
      (⟨Value.str "TEMP1", Value.none, Value.str "9876543210", Value.none,
        Value.none, Value.none, Value.none⟩ : MappedRow)).loaner_adhar
      = Value.none := by
  have h := c10_classifier_row_invariant [[Value.str "9876543210"]]
    [⟨Value.str "TEMP1", Value.none, Value.str "9876543210", Value.none,
      Value.none, Value.none, Value.none⟩] (by decide)
    (⟨Value.str "TEMP1", Value.none, Value.str "9876543210", Value.none,
      Value.none, Value.none, Value.none⟩ : MappedRow)
    (List.mem_singleton_self _)
  exact h

/-- `dropWhile` ignores a final element failing the predicate. -/
theorem dropWhile_append_single (p : Char → Bool) (c : Char)
    (hc : p c = false) :
    ∀ l : List Char, (l ++ [c]).dropWhile p = l.dropWhile p ++ [c] := by
  intro l
  induction l with
  | nil => simp [List.dropWhile, hc]
  | cons x xs ih =>
    by_cases hx : p x = true
    · simp only [List.cons_append, List.dropWhile_cons, hx, if_true]
      exact ih
    · have hx2 : p x = false := by
        simpa using hx
      simp [List.dropWhile_cons, hx2]

/-- Stripping whitespace from a string ending in `".0"` strips only the
front. -/
theorem stripList_dot0 (m : List Char) :
    stripList pyIsSpace (m ++ ['.', '0']) =
      m.dropWhile pyIsSpace ++ ['.', '0'] := by
  have hdot : pyIsSpace '.' = false := by decide
  have hzero : pyIsSpace '0' = false := by decide
  have h1 : (m ++ ['.', '0']).dropWhile pyIsSpace =
      m.dropWhile pyIsSpace ++ ['.', '0'] := by
    have e : m ++ ['.', '0'] = (m ++ ['.']) ++ ['0'] := by simp
    rw [e, dropWhile_append_single pyIsSpace '0' hzero,
        dropWhile_append_single pyIsSpace '.' hdot]
    simp
  unfold stripList
  rw [h1]
  have h2 : (m.dropWhile pyIsSpace ++ ['.', '0']).reverse =
      '0' :: '.' :: (m.dropWhile pyIsSpace).reverse := by
    simp
  rw [h2, List.dropWhile_cons]
  simp only [hzero, Bool.false_eq_true, if_false]
  simp

/-- Dropping the length of `takeWhile` is `dropWhile`. -/
theorem drop_length_takeWhile (p : Char → Bool) :
    ∀ l : List Char, l.drop (l.takeWhile p).length = l.dropWhile p := by
  intro l
  induction l with
  | nil => rfl
  | cons x xs ih =>
    by_cases hx : p x = true
    · simp only [List.takeWhile_cons, List.dropWhile_cons, hx, if_true,
        List.length_cons, List.drop_succ_cons]
      exact ih
    · have hx2 : p x = false := by simpa using hx
      simp [List.takeWhile_cons, List.dropWhile_cons, hx2]

/-- The sign-stripped tail is made of members of the original list. -/
theorem signSplit_mem (t : List Char) :
    ∀ y ∈ (signSplit t).2, y ∈ t := by
  unfold signSplit
  split
  · intro y hy
    exact List.mem_cons_of_mem _ hy
  · intro y hy
    exact List.mem_cons_of_mem _ hy
  · intro y hy
    exact hy

/-- Members of the original exponent tail are the optional sign or
members of the sign-stripped tail. -/
theorem signSplit_mem_rev (t : List Char) :
    ∀ y ∈ t, y = '+' ∨ y = '-' ∨ y ∈ (signSplit t).2 := by
  unfold signSplit
  split
  next u =>
    intro y hy
    rcases List.mem_cons.mp hy with h1 | h1
    · exact Or.inl h1
    · exact Or.inr (Or.inr h1)
  next u =>
    intro y hy
    rcases List.mem_cons.mp hy with h1 | h1
    · exact Or.inr (Or.inl h1)
    · exact Or.inr (Or.inr h1)
  next =>
    intro y hy
    exact Or.inr (Or.inr hy)

/-- A non-empty sign-stripped tail means a non-empty tail. -/
theorem signSplit_ne_nil (t : List Char) (h : (signSplit t).2 ≠ []) :
    t ≠ [] := by
  intro hnil
  subst hnil
  exact h rfl

/-- A successful exponent-part parse constrains its input: the marker is
`e`/`E` and the remainder is a non-empty optional sign followed by
digits — in particular it contains no `'.'`. -/
theorem parseFloatExp_cons_shape (neg : Bool) (ip fp : List Char)
    (e : Char) (t2 : List Char) (q : ℚ)
    (hq : parseFloatExp neg ip fp (e :: t2) = some q) :
    (e = 'e' ∨ e = 'E') ∧ t2 ≠ [] ∧
      (∀ y ∈ t2, y = '+' ∨ y = '-' ∨ y.isDigit = true) := by
  unfold parseFloatExp at hq
  dsimp only at hq
  by_cases he : (decide (e = 'e') || decide (e = 'E')) = true
  · rw [if_pos he] at hq
    by_cases hguard : (decide ((signSplit t2).2.takeWhile Char.isDigit = []) ||
        decide ((signSplit t2).2.drop
          ((signSplit t2).2.takeWhile Char.isDigit).length ≠ [])) = true
    · rw [if_pos hguard] at hq
      cases hq
    · have hg := hguard
      rw [Bool.or_eq_true] at hg
      push_neg at hg
      have hed : (signSplit t2).2.takeWhile Char.isDigit ≠ [] := by
        intro hc
        exact hg.1 (by simpa using hc)
      have hrest : (signSplit t2).2.drop
          ((signSplit t2).2.takeWhile Char.isDigit).length = [] := by
        by_contra hc
        exact hg.2 (by simpa using hc)
      rw [drop_length_takeWhile] at hrest
      have hall : ∀ y ∈ (signSplit t2).2, y.isDigit = true := by
        intro y hy
        have hsp : (signSplit t2).2 = (signSplit t2).2.takeWhile Char.isDigit := by
          conv_lhs => rw [← List.takeWhile_append_dropWhile
            (p := Char.isDigit) (l := (signSplit t2).2)]
          rw [hrest, List.append_nil]
        rw [hsp] at hy
        exact List.mem_takeWhile_imp hy
      refine ⟨by simpa using he, ?_, ?_⟩
      · refine signSplit_ne_nil t2 ?_
        intro hc
        rw [hc] at hed
        exact hed rfl
      · intro y hy
        rcases signSplit_mem_rev t2 y hy with h1 | h1 | h1
        · exact Or.inl h1
        · exact Or.inr (Or.inl h1)
        · exact Or.inr (Or.inr (hall y h1))
  · rw [if_neg he] at hq
    cases hq

/-- The rational assembled from a mantissa with fractional part `"0"`
and zero exponent is an integer. -/
theorem assembleFloat_dot0 (neg : Bool) (ip : List Char) :
    ∃ n : ℤ, assembleFloat neg ip ['0'] 0 = (n : ℚ) := by
  have h0 : digitsToNat ['0'] = 0 := rfl
  have hmul : ∀ x y : ℤ, Int.mul x y = x * y := fun _ _ => rfl
  have hofn : ∀ x : Nat, Int.ofNat x = (x : ℤ) := fun _ => rfl
  have hp1 : Nat.pow 10 1 = 10 := rfl
  have hp0 : Nat.pow 10 0 = 1 := rfl
  unfold assembleFloat
  cases neg with
  | false =>
    refine ⟨(digitsToNat ip : ℤ), ?_⟩
    show mkRat (Int.mul (Int.ofNat (digitsToNat ip * Nat.pow 10 1 + digitsToNat ['0']))
        (Int.ofNat (Nat.pow 10 0))) (Nat.pow 10 1) = _
    rw [Rat.mkRat_eq_div, h0, hmul, hp1, hp0, hofn, hofn]
    push_cast
    ring
  | true =>
    refine ⟨-(digitsToNat ip : ℤ), ?_⟩
    show mkRat (Int.mul (Int.neg (Int.ofNat (digitsToNat ip * Nat.pow 10 1 + digitsToNat ['0'])))
        (Int.ofNat (Nat.pow 10 0))) (Nat.pow 10 1) = _
    have hneg : ∀ x : ℤ, Int.neg x = -x := fun _ => rfl
    rw [Rat.mkRat_eq_div, h0, hneg, hmul, hp1, hp0, hofn, hofn]
    push_cast
    ring

/-- A successful parse of a sign-stripped string ending in `".0"` is an
integer: the fractional part must be exactly `"0"` and no exponent can
follow. -/
theorem pyFloatParseCore_dot0 (neg : Bool) (m1 : List Char) (q : ℚ)
    (hq : pyFloatParseCore neg (m1 ++ ['.', '0']) = some q) :
    ∃ n : ℤ, q = (n : ℚ) := by
  unfold pyFloatParseCore at hq
  dsimp only at hq
  rw [drop_length_takeWhile] at hq
  have hdotmem : '.' ∈ m1 ++ ['.', '0'] :=
    List.mem_append_right _ (by decide)
  have hdotdrop : '.' ∈ (m1 ++ ['.', '0']).dropWhile Char.isDigit := by
    have hsplit := List.takeWhile_append_dropWhile
      (p := Char.isDigit) (l := m1 ++ ['.', '0'])
    rcases List.mem_append.mp (by rw [hsplit]; exact hdotmem) with h | h
    · have := List.mem_takeWhile_imp h
      simp at this
    · exact h
  cases hd : (m1 ++ ['.', '0']).dropWhile Char.isDigit with
  | nil => rw [hd] at hdotdrop; cases hdotdrop
  | cons c t =>
    rw [hd] at hq hdotdrop
    split at hq
    case _ t' heq =>
      -- the '.'-headed arm
      rw [List.cons.injEq] at heq
      obtain ⟨hc, ht'⟩ := heq
      split_ifs at hq with hguard
      rw [drop_length_takeWhile] at hq
      have hcs : m1 ++ ['.', '0'] =
          (m1 ++ ['.', '0']).takeWhile Char.isDigit ++ '.' :: t' := by
        conv_lhs => rw [← List.takeWhile_append_dropWhile
          (p := Char.isDigit) (l := m1 ++ ['.', '0'])]
        rw [hd, hc, ht']
      cases hrest : t'.dropWhile Char.isDigit with
      | nil =>
        rw [hrest] at hq
        have hq2 : q = assembleFloat neg
            ((m1 ++ ['.', '0']).takeWhile Char.isDigit)
            (t'.takeWhile Char.isDigit) 0 := by
          unfold parseFloatExp at hq
          exact (Option.some.inj hq).symm
        have ht2 : t' = t'.takeWhile Char.isDigit := by
          conv_lhs => rw [← List.takeWhile_append_dropWhile
            (p := Char.isDigit) (l := t')]
          rw [hrest, List.append_nil]
        -- reverse analysis: t' must be exactly ['0']
        have hrev : ('0' : Char) :: '.' :: m1.reverse =
            t'.reverse ++ '.' :: ((m1 ++ ['.', '0']).takeWhile Char.isDigit).reverse := by
          have := congrArg List.reverse hcs
          simpa [List.reverse_append] using this
        cases hrevt : t'.reverse with
        | nil =>
          rw [hrevt] at hrev
          simp only [List.nil_append, List.cons.injEq] at hrev
          exact absurd hrev.1 (by decide)
        | cons z zs =>
          rw [hrevt] at hrev
          simp only [List.cons_append, List.cons.injEq] at hrev
          obtain ⟨hz, hrev2⟩ := hrev
          cases zs with
          | nil =>
            -- t' = [z] = ['0']
            have ht0 : t' = ['0'] := by
              have := congrArg List.reverse hrevt
              simp at this
              rw [this, hz]
            rw [ht0] at hq2
            have hfp : List.takeWhile Char.isDigit ['0'] = ['0'] := by decide
            rw [hfp] at hq2
            obtain ⟨n, hn⟩ := assembleFloat_dot0 neg
              ((m1 ++ ['.', '0']).takeWhile Char.isDigit)
            exact ⟨n, by rw [hq2, hn]⟩
          | cons y ys =>
            simp only [List.cons_append, List.cons.injEq] at hrev2
            obtain ⟨hy, -⟩ := hrev2
            have hymem : y ∈ t' := by
              have : y ∈ t'.reverse := by
                rw [hrevt]
                exact List.mem_cons_of_mem _ (List.mem_cons_self _ _)
              exact List.mem_reverse.mp this
            rw [ht2] at hymem
            have := List.mem_takeWhile_imp hymem
            rw [← hy] at this
            simp at this
      | cons e t2 =>
        rw [hrest] at hq
        have hshape := parseFloatExp_cons_shape _ _ _ _ _ _ hq
        have ht'split : t' = t'.takeWhile Char.isDigit ++ e :: t2 := by
          conv_lhs => rw [← List.takeWhile_append_dropWhile
            (p := Char.isDigit) (l := t')]
          rw [hrest]
        have hrev : ('0' : Char) :: '.' :: m1.reverse =
            t2.reverse ++ e :: ((t'.takeWhile Char.isDigit).reverse ++
              '.' :: ((m1 ++ ['.', '0']).takeWhile Char.isDigit).reverse) := by
          have hcs2 : m1 ++ ['.', '0'] =
              (m1 ++ ['.', '0']).takeWhile Char.isDigit ++
                '.' :: (t'.takeWhile Char.isDigit ++ e :: t2) := by
            conv_lhs => rw [hcs]
            rw [← ht'split]
          have := congrArg List.reverse hcs2
          simpa [List.reverse_append] using this
        cases hrevt2 : t2.reverse with
        | nil =>
          have : t2 = [] := by
            have := congrArg List.reverse hrevt2
            simpa using this
          exact absurd this hshape.2.1
        | cons z zs =>
          rw [hrevt2] at hrev
          simp only [List.cons_append, List.cons.injEq] at hrev
          obtain ⟨hz, hrev2⟩ := hrev
          cases zs with
          | nil =>
            simp only [List.nil_append, List.cons.injEq] at hrev2
            obtain ⟨hdot_e, -⟩ := hrev2
            rcases hshape.1 with he | he <;> rw [he] at hdot_e <;>
              exact absurd hdot_e (by decide)
          | cons y ys =>
            simp only [List.cons_append, List.cons.injEq] at hrev2
            obtain ⟨hy, -⟩ := hrev2
            have hymem : y ∈ t2 := by
              have : y ∈ t2.reverse := by
                rw [hrevt2]
                exact List.mem_cons_of_mem _ (List.mem_cons_self _ _)
              exact List.mem_reverse.mp this
            rcases hshape.2.2 y hymem with h1 | h1 | h1 <;>
              rw [← hy] at h1 <;> simp at h1
    case _ hne1 hne2 =>
      -- catch-all arm: the head is not '.'
      split_ifs at hq with hip
      have hshape := parseFloatExp_cons_shape _ _ _ _ _ _ hq
      rcases List.mem_cons.mp hdotdrop with h1 | h1
      · rcases hshape.1 with he | he <;> rw [← h1] at he <;> simp at he
      · rcases hshape.2.2 '.' h1 with h2 | h2 | h2 <;> simp at h2

/-- A successful `float()` of a string ending in `".0"` yields an
integer. -/
theorem pyFloatParse_dot0 (s : String) (hend : pyEndsWith s ".0" = true)
    (q : ℚ) (hq : pyFloatParse s = some q) : ∃ n : ℤ, q = (n : ℚ) := by
  have hsuf : ∃ m, s.toList = m ++ ['.', '0'] := by
    have h1 : (".0".toList) <:+ s.toList := List.isSuffixOf_iff_suffix.mp hend
    obtain ⟨m, hm⟩ := h1
    exact ⟨m, hm.symm⟩
  obtain ⟨m, hm⟩ := hsuf
  unfold pyFloatParse at hq
  rw [hm, stripList_dot0] at hq
  cases hmd : m.dropWhile pyIsSpace with
  | nil =>
    rw [hmd] at hq
    exact pyFloatParseCore_dot0 false [] q hq
  | cons c u =>
    rw [hmd, List.cons_append] at hq
    split at hq
    case _ t heq =>
      rw [List.cons.injEq] at heq
      obtain ⟨hc, ht⟩ := heq
      rw [← ht] at hq
      exact pyFloatParseCore_dot0 false u q hq
    case _ t heq =>
      rw [List.cons.injEq] at heq
      obtain ⟨hc, ht⟩ := heq
      rw [← ht] at hq
      exact pyFloatParseCore_dot0 true u q hq
    case _ hne1 hne2 =>
      rw [← List.cons_append] at hq
      exact pyFloatParseCore_dot0 false (c :: u) q hq

/-- Truncation of an integral rational is its integer. -/
theorem pyInt_intCast (n : ℤ) : pyInt ((n : ℚ)) = n := by
  unfold pyInt
  rw [Rat.num_intCast, Rat.den_intCast]
  exact Int.tdiv_one n

/-- For batch indices the `{index:04d}` padding is exactly four
characters. -/
theorem pad4_length (i : Nat) (h : i ≤ 9999) : (pad4 i).length = 4 := by
  unfold pad4
  rw [if_pos (by omega : i < 10000)]
  rfl

/-- Digits below ten map to distinct digit characters. -/
theorem digitChar_inj (d e : Nat) (hd : d < 10) (he : e < 10)
    (h : Nat.digitChar d = Nat.digitChar e) : d = e := by
  interval_cases d <;> interval_cases e <;> first | rfl | (exfalso; exact absurd h (by decide))

/-- The four-digit padding is injective on one batch's index range. -/
theorem pad4_inj (i j : Nat) (hi : i ≤ 9999) (hj : j ≤ 9999)
    (h : pad4 i = pad4 j) : i = j := by
  unfold pad4 at h
  rw [if_pos (by omega : i < 10000), if_pos (by omega : j < 10000)] at h
  have hl : [Nat.digitChar (i / 1000 % 10), Nat.digitChar (i / 100 % 10),
      Nat.digitChar (i / 10 % 10), Nat.digitChar (i % 10)] =
      [Nat.digitChar (j / 1000 % 10), Nat.digitChar (j / 100 % 10),
        Nat.digitChar (j / 10 % 10), Nat.digitChar (j % 10)] := by
    have := congrArg String.toList h
    simpa using this
  simp only [List.cons.injEq, and_true] at hl
  obtain ⟨h1, h2, h3, h4⟩ := hl
  have e1 := digitChar_inj _ _ (Nat.mod_lt _ (by omega)) (Nat.mod_lt _ (by omega)) h1
  have e2 := digitChar_inj _ _ (Nat.mod_lt _ (by omega)) (Nat.mod_lt _ (by omega)) h2
  have e3 := digitChar_inj _ _ (Nat.mod_lt _ (by omega)) (Nat.mod_lt _ (by omega)) h3
  have e4 := digitChar_inj _ _ (Nat.mod_lt _ (by omega)) (Nat.mod_lt _ (by omega)) h4
  omega

/-- Characters of a concatenation. -/
theorem string_toList_append (a b : String) :
    (a ++ b).toList = a.toList ++ b.toList := by
  cases a
  cases b
  rfl

/-- C5: the identifier reconciler synthesizes
`"AUTO" ++ batchTag ++ {index:04d}` for null-or-blank raw ids (padding
to exactly four digits on the batch range); a trimmed value ending in
`".0"` that `float()` accepts is an *integer* and its integer string
form is returned, with the trimmed original kept on parse failure;
every other non-blank value is returned trimmed; `ensureId("42.0", 1,
"X") = "42"`; and synthesized ids are pairwise distinct within one
batch for indices 1–9999. -/
theorem c5_identifier_reconciler :
    (∀ (v : Value) (i : Nat) (tag : String),
      (v = Value.none ∨ pyStrip (strOfValue v) = "") →
      ensureLoanerId v i tag = "AUTO" ++ tag ++ pad4 i) ∧
    (∀ i : Nat, 1 ≤ i → i ≤ 9999 → (pad4 i).length = 4) ∧
    (∀ (v : Value) (i : Nat) (tag : String),
      pyStrip (strOfValue v) ≠ "" →
      pyEndsWith (pyStrip (strOfValue v)) ".0" = true →
      (∀ q, pyFloatParse (pyStrip (strOfValue v)) = some q →
        ∃ n : ℤ, q = (n : ℚ) ∧ ensureLoanerId v i tag = toString n) ∧
      (pyFloatParse (pyStrip (strOfValue v)) = Option.none →
        ensureLoanerId v i tag = pyStrip (strOfValue v))) ∧
    (∀ (v : Value) (i : Nat) (tag : String),
      v ≠ Value.none →
      pyStrip (strOfValue v) ≠ "" →
      pyEndsWith (pyStrip (strOfValue v)) ".0" = false →
      ensureLoanerId v i tag = pyStrip (strOfValue v)) ∧
    ensureLoanerId (Value.str "42.0") 1 "X" = "42" ∧
    (∀ (tag : String) (i j : Nat), 1 ≤ i → i ≤ 9999 → 1 ≤ j → j ≤ 9999 →
      i ≠ j → "AUTO" ++ tag ++ pad4 i ≠ "AUTO" ++ tag ++ pad4 j) := by
  refine ⟨?_, ?_, ?_, ?_, by decide, ?_⟩
  · intro v i tag h
    cases v with
    | none => rfl
    | str s =>
      rcases h with h | h
      · cases h
      · simp [ensureLoanerId, h]
    | num p =>
      rcases h with h | h
      · cases h
      · simp [ensureLoanerId, h]
  · intro i h1 h2
    exact pad4_length i h2
  · intro v i tag hne hend
    constructor
    · intro q hq
      obtain ⟨n, hn⟩ := pyFloatParse_dot0 _ hend q hq
      refine ⟨n, hn, ?_⟩
      cases v with
      | none => exact absurd hend (by decide)
      | str s =>
        rw [hn] at hq
        simp [ensureLoanerId, hne, hend, hq, pyInt_intCast]
      | num p =>
        rw [hn] at hq
        simp [ensureLoanerId, hne, hend, hq, pyInt_intCast]
    · intro hq
      cases v with
      | none => exact absurd hend (by decide)
      | str s => simp [ensureLoanerId, hne, hend, hq]
      | num p => simp [ensureLoanerId, hne, hend, hq]
  · intro v i tag hv hne hend
    cases v with
    | none => exact absurd rfl hv
    | str s => simp [ensureLoanerId, hne, hend]
    | num p => simp [ensureLoanerId, hne, hend]
  · intro tag i j h1i h2i h1j h2j hij heq
    have hdata := congrArg String.toList heq
    rw [string_toList_append, string_toList_append,
        string_toList_append, string_toList_append] at hdata
    have hpl : (pad4 i).toList = (pad4 j).toList := by
      rw [List.append_assoc, List.append_assoc] at hdata
      exact List.append_cancel_left (List.append_cancel_left hdata)
    have hps : pad4 i = pad4 j := by
      cases hpi : pad4 i with
      | mk di =>
        cases hpj : pad4 j with
        | mk dj =>
          rw [hpi, hpj] at hpl
          have : di = dj := by simpa using hpl
          rw [this]
    exact hij (pad4_inj i j h2i h2j hps)

/-- C5 witness: the synthesis rule at a concrete null id, and
distinctness of two concrete synthesized ids of one batch. -/
theorem c5_identifier_reconciler_witness :
    ensureLoanerId Value.none 3 "AB12CD34" = "AUTO" ++ "AB12CD34" ++ pad4 3 ∧
    "AUTO" ++ "T" ++ pad4 1 ≠ "AUTO" ++ "T" ++ pad4 2 :=
  ⟨c5_identifier_reconciler.1 Value.none 3 "AB12CD34" (Or.inl rfl),
   c5_identifier_reconciler.2.2.2.2.2 "T" 1 2 (by decide) (by decide)
     (by decide) (by decide) (by decide)⟩

/-- Folding `max` from any seed. -/
theorem foldl_max_init (l : List Nat) : ∀ a : Nat, l.foldl max a = max a (l.foldl max 0) := by
  induction l with
  | nil => intro a; simp
  | cons s rest ih =>
    intro a
    simp only [List.foldl_cons]
    rw [ih (max a s), ih (max 0 s)]
    omega

/-- The scan loop, started from an arbitrary accumulated best, returns
the first full-score index, else the first index attaining the overall
maximum when that maximum beats the accumulator and clears the
threshold. -/
theorem detectScan_eq :
    ∀ (l : List Nat) (i : Nat) (bi : Option Nat) (bs : Nat),
      bs < 7 → (∀ s ∈ l, s ≤ 7) →
      detectScan i bi bs l =
        (match l.findIdx? (· = 7) i with
         | some j => some j
         | Option.none =>
           if 4 ≤ max bs (l.foldl max 0) then
             (if bs < l.foldl max 0 then l.findIdx? (· = l.foldl max 0) i
              else bi)
           else Option.none) := by
  intro l
  induction l with
  | nil =>
    intro i bi bs h7 hle
    show (if 4 ≤ bs then bi else Option.none) = _
    simp only [List.findIdx?, List.foldl_nil, Nat.max_zero]
    by_cases h : 4 ≤ bs
    · rw [if_pos h, if_pos h, if_neg (by omega)]
    · rw [if_neg h, if_neg h]
  | cons s rest ih =>
    intro i bi bs h7 hle
    have hs7 : s ≤ 7 := hle s (List.mem_cons_self _ _)
    show (if s = 7 then some i
          else detectScan (i + 1) (if bs < s then some i else bi)
            (if bs < s then s else bs) rest) = _
    by_cases h7s : s = 7
    · rw [if_pos h7s]
      have hfind : (s :: rest).findIdx? (· = 7) i = some i := by
        simp [List.findIdx?, h7s]
      rw [hfind]
    · rw [if_neg h7s]
      have hbs' : (if bs < s then s else bs) < 7 := by
        split_ifs <;> omega
      rw [ih (i + 1) (if bs < s then some i else bi) (if bs < s then s else bs)
        hbs' (fun x hx => hle x (List.mem_cons_of_mem _ hx))]
      have hfind7 : (s :: rest).findIdx? (· = 7) i =
          rest.findIdx? (· = 7) (i + 1) := by
        simp [List.findIdx?, h7s]
      rw [hfind7]
      cases hf : rest.findIdx? (· = 7) (i + 1) with
      | some j => rfl
      | none =>
        have hfold : (s :: rest).foldl max 0 = max s (rest.foldl max 0) := by
          simp only [List.foldl_cons]
          rw [foldl_max_init]
          omega
        rw [hfold]
        by_cases hbss : bs < s
        · rw [if_pos hbss, if_pos hbss]
          have hc1 : max bs (max s (rest.foldl max 0)) =
              max s (rest.foldl max 0) := by omega
          rw [hc1]
          by_cases h4 : 4 ≤ max s (rest.foldl max 0)
          · rw [if_pos h4, if_pos h4, if_pos (show bs < max s (rest.foldl max 0) by omega)]
            by_cases hsm : s < rest.foldl max 0
            · rw [if_pos hsm]
              have hM : max s (rest.foldl max 0) = rest.foldl max 0 := by omega
              rw [hM]
              have : (s :: rest).findIdx? (· = rest.foldl max 0) i =
                  rest.findIdx? (· = rest.foldl max 0) (i + 1) := by
                simp [List.findIdx?, (show ¬ s = rest.foldl max 0 by omega)]
              rw [this]
            · rw [if_neg hsm]
              have hM : max s (rest.foldl max 0) = s := by omega
              rw [hM]
              have : (s :: rest).findIdx? (· = s) i = some i := by
                simp [List.findIdx?]
              rw [this]
          · rw [if_neg h4, if_neg h4]
        · rw [if_neg hbss, if_neg hbss]
          have hc1 : max bs (max s (rest.foldl max 0)) =
              max bs (rest.foldl max 0) := by omega
          rw [hc1]
          by_cases h4 : 4 ≤ max bs (rest.foldl max 0)
          · rw [if_pos h4, if_pos h4]
            by_cases hbm : bs < rest.foldl max 0
            · rw [if_pos hbm, if_pos (show bs < max s (rest.foldl max 0) by omega)]
              have hM : max s (rest.foldl max 0) = rest.foldl max 0 := by omega
              rw [hM]
              have : (s :: rest).findIdx? (· = rest.foldl max 0) i =
                  rest.findIdx? (· = rest.foldl max 0) (i + 1) := by
                simp [List.findIdx?, (show ¬ s = rest.foldl max 0 by omega)]
              rw [this]
            · rw [if_neg hbm, if_neg (show ¬ bs < max s (rest.foldl max 0) by omega)]
          · rw [if_neg h4, if_neg h4]

/-- C2: the header locator scans at most the first 15 rows of the
headerless parse, scoring each row by the number of distinct canonical
fields matched by its normalized non-empty cells (duplicates of one
field count once); it equals the spec-worded scan — first full-7 row
immediately, else the first row attaining the best score when that
score is at least 4, else absent.  In particular, with rows 0–6
matching nothing and row 7 matching all seven fields, it returns
index 7 for *any* continuation, i.e. without scanning further rows. -/
theorem c2_header_locator :
    (∀ rows : List (List Value),
      detectHeaderRow rows = detectHeaderRowSpec rows) ∧
    (∀ suffix : List (List Value),
      detectHeaderRow (List.replicate 7 junkRow ++ [headerAliasRow] ++ suffix)
        = some 7) := by
  constructor
  · intro rows
    unfold detectHeaderRow detectHeaderRowSpec
    dsimp only
    have hbound : ∀ s ∈ (rows.take 15).map rowScore, s ≤ 7 := by
      intro s hsm
      obtain ⟨row, -, hrow⟩ := List.mem_map.mp hsm
      rw [← hrow]
      unfold rowScore
      calc (REQUIRED_FIELDS.filter _).length
          ≤ REQUIRED_FIELDS.length := List.length_filter_le _ _
        _ = 7 := rfl
    rw [detectScan_eq ((rows.take 15).map rowScore) 0 Option.none 0
      (by omega) hbound]
    cases hf : ((rows.take 15).map rowScore).findIdx? (· = 7) with
    | some j => rfl
    | none =>
      dsimp only
      rw [Nat.zero_max]
      by_cases h4 : 4 ≤ ((rows.take 15).map rowScore).foldl max 0
      · rw [if_pos h4, if_pos h4, if_pos (by omega)]
      · rw [if_neg h4, if_neg h4]
  · intro suffix
    unfold detectHeaderRow
    rw [List.append_assoc, List.take_append_eq_append_take]
    have h1 : (List.replicate 7 junkRow).take 15 = List.replicate 7 junkRow := by
      decide
    have h2 : ([headerAliasRow] ++ suffix).take
        (15 - (List.replicate 7 junkRow).length) =
        [headerAliasRow] ++ suffix.take 7 := by
      have : (List.replicate 7 junkRow).length = 7 := by decide
      rw [this, List.take_append_eq_append_take]
      have h3 : ([headerAliasRow] : List (List Value)).take 8 = [headerAliasRow] := rfl
      rw [h3]
      have h4 : (8 : Nat) - ([headerAliasRow] : List (List Value)).length = 7 := rfl
      rw [h4]
    rw [h1, h2, List.map_append, List.map_append]
    have hj : (List.replicate 7 junkRow).map rowScore = [0, 0, 0, 0, 0, 0, 0] := by
      decide
    have hh : ([headerAliasRow] : List (List Value)).map rowScore = [7] := by
      decide
    rw [hj, hh]
    show detectScan 0 Option.none 0
      (0 :: 0 :: 0 :: 0 :: 0 :: 0 :: 0 :: 7 :: (suffix.take 7).map rowScore)
      = some 7
    simp [detectScan]
